import Mathlib

/-!
Verification of the diffshield review-synthesis pipeline (src/lib/ai.ts).

The TypeScript source is shallowly embedded: JavaScript values flowing through
`JSON.parse` / `JSON.stringify` are modelled by the inductive `Js` below
(numbers are exact decimals `m / 10 ^ e`, which covers every finite decimal a
JavaScript float prints to; strings are Unicode as in Lean), the global `fetch`
is a caller-supplied oracle from requests to outcomes, and the network calls a
function performs are returned as an explicit trace.  Exceptions of the
embedded code (`JSON.parse` failures, `fetch` rejections, property access on
`null`, calling `.match` on a non-string) are modelled with `Except`; a
`try`/`catch` of the source becomes a `match` on the `Except` value at the
same place.
-/

set_option maxRecDepth 40000

namespace DiffShield

/-- A JavaScript value as produced by `JSON.parse`: `num m e` is the exact
decimal `m / 10 ^ e` (every finite decimal numeral, hence every numeral
`JSON.stringify` prints for a float). -/
inductive Js where
  | null
  | bool (b : Bool)
  | num (m : Int) (e : Nat)
  | str (s : String)
  | arr (elems : List Js)
  | obj (fields : List (String × Js))

/-- Truthiness of a JavaScript value: `null`, `false`, `0` and `""` are falsy;
every array and object is truthy. -/
def Js.truthy : Js → Bool
  | .null => false
  | .bool b => b
  | .num m _ => m != 0
  | .str s => !(s == "")
  | .arr _ => true
  | .obj _ => true

/-- Property access `v.k` on a JavaScript value, `none` meaning `undefined`.
On an object with duplicate keys (possible straight out of `JSON.parse`) the
later binding wins, as in JavaScript; on any non-object the result is
`undefined` (property access only throws on `null`/`undefined`, which callers
handle separately). -/
def Js.get? : Js → String → Option Js
  | .obj fs, k => fs.foldl (fun acc p => if p.1 = k then some p.2 else acc) none
  | _, _ => none

/-- The JavaScript `a || b`: `b` when `a` is falsy, else `a`. -/
def jsOr (a b : Js) : Js := if a.truthy then a else b

/-- The JavaScript `a || b` where `a` may be `undefined` (`none`). -/
def jsOrU (a : Option Js) (b : Js) : Js :=
  match a with
  | some v => jsOr v b
  | none => b

/-! ### `JSON.stringify`, as a character-list printer -/

/-- The character for a decimal digit `d < 10`. -/
def digCh (d : Nat) : Char := Char.ofNat (48 + d)

/-- Decimal digit characters, most significant first, by structural recursion
on a fuel bound so that the definition reduces inside the kernel. -/
def natCharsAux : Nat → Nat → List Char
  | 0, n => [digCh n]
  | fuel + 1, n => if n < 10 then [digCh n] else natCharsAux fuel (n / 10) ++ [digCh (n % 10)]

/-- Decimal digit characters of `n`, most significant first. -/
def natChars (n : Nat) : List Char := natCharsAux n n

/-- The numeral for the non-negative decimal `n / 10 ^ e`: plain digits when
`e = 0`, otherwise digits padded to at least `e + 1` places with a decimal
point inserted before the last `e` of them (so `(5, 1)` prints `0.5`). -/
def emitNumAbs (n : Nat) (e : Nat) : List Char :=
  if e = 0 then natChars n
  else
    let ds := natChars n
    let padded := if ds.length < e + 1 then List.replicate (e + 1 - ds.length) '0' ++ ds else ds
    padded.take (padded.length - e) ++ '.' :: padded.drop (padded.length - e)

/-- The numeral for the decimal `m / 10 ^ e`, with its sign. -/
def emitNum (m : Int) (e : Nat) : List Char :=
  (if m < 0 then ['-'] else []) ++ emitNumAbs m.natAbs e

/-- A lowercase hexadecimal digit character for `d < 16`. -/
def hexCh (d : Nat) : Char := if d < 10 then Char.ofNat (48 + d) else Char.ofNat (87 + d)

/-- JSON escaping of one string character, as `JSON.stringify` performs it:
quote and backslash get two-character escapes, the five named control
characters get their short escapes, every other control character becomes a
`\u00XX` sequence, and everything else is emitted verbatim. -/
def escChar (c : Char) : List Char :=
  if c = '"' then ['\\', '"']
  else if c = '\\' then ['\\', '\\']
  else if c = Char.ofNat 8 then ['\\', 'b']
  else if c = Char.ofNat 9 then ['\\', 't']
  else if c = Char.ofNat 10 then ['\\', 'n']
  else if c = Char.ofNat 12 then ['\\', 'f']
  else if c = Char.ofNat 13 then ['\\', 'r']
  else if c.toNat < 32 then ['\\', 'u', '0', '0', hexCh (c.toNat / 16), hexCh (c.toNat % 16)]
  else [c]

/-- The escaped body of a JSON string literal. -/
def emitStrBody (s : String) : List Char := (s.toList.map escChar).flatten

/-- A complete JSON string literal. -/
def emitStr (s : String) : List Char := '"' :: (emitStrBody s ++ ['"'])

mutual

/-- Characters `JSON.stringify` produces for a value (no whitespace). -/
def emit : Js → List Char
  | .null => 'n' :: 'u' :: ['l', 'l']
  | .bool true => 't' :: 'r' :: ['u', 'e']
  | .bool false => 'f' :: 'a' :: ['l', 's', 'e']
  | .num m e => emitNum m e
  | .str s => emitStr s
  | .arr es => '[' :: (emitItems es ++ [']'])
  | .obj fs => '{' :: (emitFields fs ++ ['}'])
termination_by structural j => j

/-- Comma-separated renderings of array elements. -/
def emitItems : List Js → List Char
  | [] => []
  | [j] => emit j
  | j :: js => emit j ++ ',' :: emitItems js
termination_by structural js => js

/-- Comma-separated renderings of object members. -/
def emitFields : List (String × Js) → List Char
  | [] => []
  | [(k, v)] => emitStr k ++ ':' :: emit v
  | (k, v) :: fs => emitStr k ++ ':' :: (emit v ++ ',' :: emitFields fs)
termination_by structural fs => fs

end

/-- The embedding of `JSON.stringify`. -/
def stringify (j : Js) : String := (emit j).asString

example : stringify (Js.num 5 1) = "0.5" := by decide
example : stringify (Js.num (-1200) 2) = "-12.00" := by decide
example : stringify (Js.num 0 0) = "0" := by decide
example : stringify (Js.obj [("a", Js.arr [Js.null, Js.bool true]), ("b", Js.str "x\"y")]) =
    "\x7b\"a\":[null,true],\"b\":\"x\\\"y\"\x7d" := by decide

/-! ### `JSON.parse`, as a recursive-descent parser over characters -/

/-- Whitespace `JSON.parse` skips between tokens. -/
def isWs (c : Char) : Bool := c == ' ' || c == '\t' || c == '\n' || c == '\r'

/-- Drop leading JSON whitespace. -/
def skipWs : List Char → List Char
  | c :: cs => if isWs c then skipWs cs else c :: cs
  | [] => []

/-- Decimal digit test. -/
def isDig (c : Char) : Bool := 48 ≤ c.toNat && c.toNat ≤ 57

/-- The number denoted by a most-significant-first digit run. -/
def charsNat (ds : List Char) : Nat := ds.foldl (fun a c => 10 * a + (c.toNat - 48)) 0

/-- Value of one hexadecimal digit character. -/
def hexVal? (c : Char) : Option Nat :=
  if 48 ≤ c.toNat && c.toNat ≤ 57 then some (c.toNat - 48)
  else if 97 ≤ c.toNat && c.toNat ≤ 102 then some (c.toNat - 87)
  else if 65 ≤ c.toNat && c.toNat ≤ 70 then some (c.toNat - 55)
  else none

/-- The character a short escape `\c` denotes, if `c` is a legal escape. -/
def unescCh? (c : Char) : Option Char :=
  if c = '"' then some '"'
  else if c = '\\' then some '\\'
  else if c = '/' then some '/'
  else if c = 'b' then some (Char.ofNat 8)
  else if c = 't' then some (Char.ofNat 9)
  else if c = 'n' then some (Char.ofNat 10)
  else if c = 'f' then some (Char.ofNat 12)
  else if c = 'r' then some (Char.ofNat 13)
  else none

/-- Parse a JSON string body after its opening quote, accumulating decoded
characters in reverse.  Raw control characters are rejected, escapes are
decoded; a `\u` escape must denote a Unicode scalar value (the sole departure
from JavaScript, whose strings admit lone surrogates — unrepresentable in
`String` and never produced by `JSON.stringify` of well-formed data). -/
def pStrAux : List Char → List Char → Option (String × List Char)
  | [], _ => none
  | c :: rest, acc =>
    if c = '"' then some (acc.reverse.asString, rest)
    else if c = '\\' then
      match rest with
      | [] => none
      | e :: rest2 =>
        if e = 'u' then
          match rest2 with
          | h1 :: h2 :: h3 :: h4 :: rest3 =>
            (match hexVal? h1, hexVal? h2, hexVal? h3, hexVal? h4 with
             | some a, some b, some c2, some d =>
               let v := ((a * 16 + b) * 16 + c2) * 16 + d
               if v < 55296 || (57343 < v && v < 1114112) then pStrAux rest3 (Char.ofNat v :: acc)
               else none
             | _, _, _, _ => none)
          | _ => none
        else
          match unescCh? e with
          | some ch => pStrAux rest2 (ch :: acc)
          | none => none
    else if c.toNat < 32 then none
    else pStrAux rest (c :: acc)

/-- A remainder that cannot extend a numeral: no leading digit or dot. -/
def numStop : List Char → Bool
  | [] => true
  | c :: _ => !(isDig c || c == '.')

/-- Parse an optional fraction after the integer part `iv` of a numeral,
yielding the scaled mantissa and the count of fraction digits. -/
def pFrac (iv : Nat) : List Char → Option ((Nat × Nat) × List Char)
  | [] => some ((iv, 0), [])
  | c :: rest =>
    if c = '.' then
      let fs := rest.takeWhile isDig
      if fs.isEmpty then none
      else some ((iv * 10 ^ fs.length + charsNat fs, fs.length), rest.dropWhile isDig)
    else some ((iv, 0), c :: rest)

/-- Parse an unsigned JSON numeral: the integer part is a single `0` or a run
starting with a nonzero digit (JSON's leading-zero rule), then an optional
fraction. -/
def pNumAbs : List Char → Option ((Nat × Nat) × List Char)
  | [] => none
  | c :: rest =>
    if c = '0' then pFrac 0 rest
    else if isDig c then
      pFrac (charsNat ((c :: rest).takeWhile isDig)) ((c :: rest).dropWhile isDig)
    else none

/-- Parse a signed JSON numeral into an exact decimal. -/
def pNum : List Char → Option (Js × List Char)
  | [] => none
  | c :: rest =>
    if c = '-' then (pNumAbs rest).map (fun p => (Js.num (-(p.1.1 : Int)) p.1.2, p.2))
    else (pNumAbs (c :: rest)).map (fun p => (Js.num (p.1.1 : Int) p.1.2, p.2))

mutual

/-- Parse one JSON value (fuel-structural so the kernel can evaluate it). -/
def pValue : Nat → List Char → Option (Js × List Char)
  | 0, _ => none
  | fuel + 1, cs =>
    match skipWs cs with
    | [] => none
    | c :: rest =>
      if c = 'n' then
        if ['u', 'l', 'l'].isPrefixOf rest then some (.null, rest.drop 3) else none
      else if c = 't' then
        if ['r', 'u', 'e'].isPrefixOf rest then some (.bool true, rest.drop 3) else none
      else if c = 'f' then
        if ['a', 'l', 's', 'e'].isPrefixOf rest then some (.bool false, rest.drop 4) else none
      else if c = '"' then (pStrAux rest []).map (fun p => (Js.str p.1, p.2))
      else if c = '[' then
        (match skipWs rest with
         | [] => (pItems fuel []).map (fun p => (Js.arr p.1, p.2))
         | c2 :: rest2 =>
           if c2 = ']' then some (.arr [], rest2)
           else (pItems fuel (c2 :: rest2)).map (fun p => (Js.arr p.1, p.2)))
      else if c = '{' then
        (match skipWs rest with
         | [] => (pFields fuel []).map (fun p => (Js.obj p.1, p.2))
         | c2 :: rest2 =>
           if c2 = '}' then some (.obj [], rest2)
           else (pFields fuel (c2 :: rest2)).map (fun p => (Js.obj p.1, p.2)))
      else if c = '-' || isDig c then pNum (c :: rest)
      else none
termination_by structural fuel => fuel

/-- Parse one or more comma-separated array elements up to the closing `]`. -/
def pItems : Nat → List Char → Option (List Js × List Char)
  | 0, _ => none
  | fuel + 1, cs =>
    match pValue fuel cs with
    | none => none
    | some (j, rest) =>
      match skipWs rest with
      | [] => none
      | c :: rest2 =>
        if c = ',' then (pItems fuel rest2).map (fun p => (j :: p.1, p.2))
        else if c = ']' then some ([j], rest2)
        else none
termination_by structural fuel => fuel

/-- Parse one or more `"key": value` members up to the closing brace. -/
def pFields : Nat → List Char → Option (List (String × Js) × List Char)
  | 0, _ => none
  | fuel + 1, cs =>
    match skipWs cs with
    | [] => none
    | c :: rest =>
      if c = '"' then
        match pStrAux rest [] with
        | none => none
        | some (k, rest2) =>
          match skipWs rest2 with
          | [] => none
          | c2 :: rest3 =>
            if c2 = ':' then
              match pValue fuel rest3 with
              | none => none
              | some (v, rest4) =>
                match skipWs rest4 with
                | [] => none
                | c3 :: rest5 =>
                  if c3 = ',' then (pFields fuel rest5).map (fun p => ((k, v) :: p.1, p.2))
                  else if c3 = '}' then some ([(k, v)], rest5)
                  else none
            else none
      else none
termination_by structural fuel => fuel

end

/-- The embedding of `JSON.parse` on a character list: parse one value, then
require only whitespace to remain.  The fuel `2 * length + 1` outruns any
input, since the parser consumes at least one character across every two
recursive steps. -/
def parseJsonText (cs : List Char) : Option Js :=
  match pValue (2 * cs.length + 1) cs with
  | some (j, rest) => if skipWs rest = [] then some j else none
  | none => none

example : parseJsonText "\x7b\"a\": [1, -2.50, \"x\\n\"], \"a\": null\x7d".toList =
    some (Js.obj [("a", Js.arr [Js.num 1 0, Js.num (-250) 2, Js.str "x\n"]), ("a", Js.null)]) :=
  rfl
example : parseJsonText "01".toList = none := rfl
example : parseJsonText (stringify (Js.obj [("k", Js.num 5 1)])).toList =
    some (Js.obj [("k", Js.num 5 1)]) := rfl

/-! ### Data model of `src/lib/ai.ts`

The module imports its input types from `../types`, a file absent from the
visible sources, so those shapes are modelled from the spec (§3); every field
the code reads (`s.type`, `s.oldHeading`, `s.newHeading`, `f.type`, `f.file`,
`f.message`, `stats.added` …) is present under the exact name `ai.ts` uses. -/

/-- An exact decimal number `m / 10 ^ e`, the embedding of a JavaScript
float wherever one is carried outside `Js`. -/
structure Dec where
  m : Int
  e : Nat

/-- Modelled from the spec: PRContext — title, optional body, author,
baseRef, headRef. -/
structure PRContext where
  title : String
  body : Option String
  author : String
  baseRef : String
  headRef : String

/-- Modelled from the spec: DocTypeClassification — an enumerated category
with a confidence in `[0,1]`. -/
structure DocTypeClassification where
  type : String
  confidence : Dec

/-- Modelled from the spec: the numeric stats of a SemanticDiff. -/
structure DiffStats where
  added : Nat
  removed : Nat
  modified : Nat
  moved : Nat

/-- Modelled from the spec: SectionChange — a tagged union over
added/removed/modified/moved; `ai.ts` discriminates on its `type` tag and
reads `newHeading` (`oldHeading` for removals). -/
inductive SectionChange where
  | added (newHeading : String)
  | removed (oldHeading : String)
  | modified (newHeading : String)
  | moved (newHeading : String)

/-- Modelled from the spec: SemanticDiff — stats plus an ordered sequence of
section changes. -/
structure SemanticDiff where
  stats : DiffStats
  sections : List SectionChange

/-- Modelled from the spec: ReviewFinding — kind (the `type` field read by
`ai.ts`), optional file, message. -/
structure ReviewFinding where
  type : String
  file : Option String
  message : String

/-- CodeFileInfo, declared in `ai.ts` itself. -/
structure CodeFileInfo where
  filename : String
  additions : Nat
  deletions : Nat
  patch : Option String

/-- MiniMaxConfig, declared in `ai.ts` itself. -/
structure MiniMaxConfig where
  apiKey : String
  groupId : String

/-- The anonymous finding shape the legacy functions take:
`{ type; category; message }`. -/
structure LegacyFinding where
  type : String
  category : String
  message : String

/-- Modelled from the spec: a heading/content section of a PRBodySuggestion. -/
structure PRBodySection where
  heading : String
  content : String

/-- Modelled from the spec: PRBodySuggestion — an ordered sequence of
sections. -/
structure PRBodySuggestion where
  sections : List PRBodySection

/-- Modelled from the spec: RiskItem (all sub-fields model-produced strings). -/
structure RiskItem where
  severity : String
  category : String
  description : String
  evidence : String
  suggestion : String

/-- Modelled from the spec: ReviewerChecklistItem. -/
structure ReviewerChecklistItem where
  category : String
  item : String
  priority : String

/-- Modelled from the spec: V2Verdict — verdict, confidence, summary. -/
structure V2Verdict where
  verdict : String
  confidence : Dec
  summary : String

/-- Modelled from the spec: V2ReviewOutput — the six top-level fields. -/
structure V2ReviewOutput where
  prIntent : String
  changeOverview : String
  keyRisks : List RiskItem
  checklist : List ReviewerChecklistItem
  prBodySuggestion : PRBodySuggestion
  verdict : V2Verdict

/-- The JavaScript-object form of a RiskItem, fields in declaration order. -/
def RiskItem.toJs (r : RiskItem) : Js :=
  .obj [("severity", .str r.severity), ("category", .str r.category),
        ("description", .str r.description), ("evidence", .str r.evidence),
        ("suggestion", .str r.suggestion)]

/-- The JavaScript-object form of a ReviewerChecklistItem. -/
def ReviewerChecklistItem.toJs (c : ReviewerChecklistItem) : Js :=
  .obj [("category", .str c.category), ("item", .str c.item), ("priority", .str c.priority)]

/-- The JavaScript-object form of a PRBodySection. -/
def PRBodySection.toJs (s : PRBodySection) : Js :=
  .obj [("heading", .str s.heading), ("content", .str s.content)]

/-- The JavaScript-object form of a PRBodySuggestion. -/
def PRBodySuggestion.toJs (p : PRBodySuggestion) : Js :=
  .obj [("sections", .arr (p.sections.map PRBodySection.toJs))]

/-- The JavaScript-object form of a V2Verdict. -/
def V2Verdict.toJs (v : V2Verdict) : Js :=
  .obj [("verdict", .str v.verdict), ("confidence", .num v.confidence.m v.confidence.e),
        ("summary", .str v.summary)]

/-- The JavaScript-object form of a V2ReviewOutput, keys in the order the
module itself constructs them. -/
def V2ReviewOutput.toJs (v : V2ReviewOutput) : Js :=
  .obj [("prIntent", .str v.prIntent),
        ("changeOverview", .str v.changeOverview),
        ("keyRisks", .arr (v.keyRisks.map RiskItem.toJs)),
        ("checklist", .arr (v.checklist.map ReviewerChecklistItem.toJs)),
        ("prBodySuggestion", v.prBodySuggestion.toJs),
        ("verdict", v.verdict.toJs)]

/-! ### Prompt construction (`buildRichPrompt` and the legacy prompt) -/

/-- JavaScript `a || b` for an optional string (both `undefined` and `""` are
falsy). -/
def strOrU (a : Option String) (b : String) : String :=
  match a with
  | some s => if s == "" then b else s
  | none => b

/-- JavaScript `a || b` for strings. -/
def strOr (a b : String) : String := if a == "" then b else a

/-- The embedding of `Math.round(d * 100)` for a confidence `d = m / 10 ^ e`
(round half toward positive infinity, as `Math.round` does). -/
def jsRound100 (d : Dec) : Int :=
  if d.e ≤ 2 then d.m * 10 ^ (2 - d.e)
  else Int.fdiv (2 * d.m + 10 ^ (d.e - 2)) (2 * 10 ^ (d.e - 2))

/-- One line of the files summary: `filename: +additions` slash `-deletions`. -/
def fileLine (f : CodeFileInfo) : String :=
  f.filename ++ ": +" ++ toString f.additions ++ "/-" ++ toString f.deletions

/-- One formatted section change, exactly as the arrow in `ai.ts` renders it
(the moved marker is the two characters `Â»`, the mojibake the source file
actually contains). -/
def fmtSectionChange : SectionChange → String
  | .added nh => "+ " ++ nh ++ " (added)"
  | .removed oh => "- " ++ oh ++ " (removed)"
  | .modified nh => "~ " ++ nh ++ " (modified)"
  | .moved nh => "Â» " ++ nh ++ " (moved)"

/-- One formatted high-signal finding: `[KIND] file-or-general: message`. -/
def fmtFinding (f : ReviewFinding) : String :=
  "[" ++ f.type.toUpper ++ "] " ++ strOrU f.file "general" ++ ": " ++ f.message

/-- The literal JSON-schema block `buildRichPrompt` appends. -/
def v2SchemaBlock : String :=
  "\x7b\n  \"prIntent\": \"2-3 sentence description of what this PR is trying to accomplish from the author\x27s perspective\",\n  \"changeOverview\": \"Brief summary of what changed and why it matters\",\n  \"keyRisks\": [\n    \x7b\n      \"severity\": \"high|medium|low\",\n      \"category\": \"security|breaking|docs|performance|testing\",\n      \"description\": \"What the risk is\",\n      \"evidence\": \"Specific line/file that demonstrates the risk\",\n      \"suggestion\": \"How to address or mitigate this risk\"\n    \x7d\n  ],\n  \"checklist\": [\n    \x7b\n      \"category\": \"security|docs|testing|performance\",\n      \"item\": \"Specific checklist item\",\n      \"priority\": \"required|recommended|optional\"\n    \x7d\n  ],\n  \"prBodySuggestion\": \x7b\n    \"sections\": [\n      \x7b\n        \"heading\": \"Section heading\",\n        \"content\": \"Section content\"\n      \x7d\n    ]\n  \x7d,\n  \"verdict\": \x7b\n    \"verdict\": \"approved|changes_requested|commented\",\n    \"confidence\": 0.0-1.0,\n    \"summary\": \"One sentence verdict summary\"\n  \x7d\n\x7d"

/-- The rich v2 prompt, transcribed from `buildRichPrompt` in `ai.ts`. -/
def buildRichPrompt (prContext : PRContext) (docType : DocTypeClassification)
    (semanticDiff : SemanticDiff) (findings : List ReviewFinding)
    (codeFiles : List CodeFileInfo) : String :=
  let filesChanged := codeFiles
  let filesSummary :=
    if filesChanged.length > 0 then String.intercalate "\n" (filesChanged.map fileLine)
    else "No code files changed"
  let diffStats := semanticDiff.stats
  let sectionChanges :=
    String.intercalate "\n" ((semanticDiff.sections.take 10).map fmtSectionChange)
  let highSignalFindings :=
    String.intercalate "\n"
      (((findings.filter (fun f => f.type == "error" || f.type == "warning")).take 10).map
        fmtFinding)
  "You are an expert code reviewer analyzing a GitHub Pull Request.\n\n## PR Context\n- **Title:** "
    ++ prContext.title
    ++ "\n- **Description:** " ++ strOrU prContext.body "(no description)"
    ++ "\n- **Author:** " ++ prContext.author
    ++ "\n- **Base Branch:** " ++ prContext.baseRef
    ++ "\n- **Head Branch:** " ++ prContext.headRef
    ++ "\n- **Document Type:** " ++ docType.type
    ++ " (" ++ toString (jsRound100 docType.confidence) ++ "% confidence)"
    ++ "\n\n## Changes Summary\n- Files Changed: " ++ toString filesChanged.length
    ++ "\n- Files: " ++ filesSummary
    ++ "\n\n## Semantic Diff Stats\n- Sections Added: " ++ toString diffStats.added
    ++ "\n- Sections Removed: " ++ toString diffStats.removed
    ++ "\n- Sections Modified: " ++ toString diffStats.modified
    ++ "\n- Sections Moved: " ++ toString diffStats.moved
    ++ "\n\n## Key Section Changes\n" ++ strOr sectionChanges "No section-level changes detected"
    ++ "\n\n## High-Signal Findings (Errors & Warnings)\n"
    ++ strOr highSignalFindings "No critical issues found"
    ++ "\n\nBased on this context, generate a structured PR review with the following JSON format:\n\n"
    ++ v2SchemaBlock
    ++ "\n\nRespond ONLY with valid JSON, no additional text."

/-- The legacy prompt `generateAISummary` builds (trailing spaces before the
newlines are in the source). -/
def legacyPrompt (docType : DocTypeClassification) (diff : SemanticDiff) : String :=
  "Provide a brief 1-2 sentence summary of this PR change. \nDoc type: " ++ docType.type
    ++ ". \nChanges: +" ++ toString diff.stats.added ++ " added, -"
    ++ toString diff.stats.removed ++ " removed, ~"
    ++ toString diff.stats.modified ++ " modified."

/-! ### Response parsing and validation (`parseV2Response`) -/

/-- Truthiness of a possibly-`undefined` value. -/
def truthyO (o : Option Js) : Bool :=
  match o with
  | some v => v.truthy
  | none => false

/-- The span `aiResponse.match(/\x7b[\s\S]*\x7d/)` selects: from the first
`\x7b` to the last `\x7d`, provided the latter comes after the former (the
single regex's leftmost-greedy match). -/
def extractSpan (cs : List Char) : Option (List Char) :=
  match cs.findIdx? (· = '{'), cs.reverse.findIdx? (· = '}') with
  | some i, some rj =>
    let j := cs.length - 1 - rj
    if i < j then some ((cs.drop i).take (j - i + 1)) else none
  | _, _ => none

/-- The validation-and-defaulting tail of `parseV2Response`, applied to the
decoded value: the three load-bearing fields must be truthy, everything else
defaults through `||`. -/
def validateV2 (parsed : Js) : Option Js :=
  match parsed.get? "prIntent", parsed.get? "changeOverview", parsed.get? "verdict" with
  | some pi, some co, some vd =>
    if pi.truthy && co.truthy && vd.truthy then
      some (Js.obj
        [("prIntent", pi),
         ("changeOverview", co),
         ("keyRisks", jsOrU (parsed.get? "keyRisks") (Js.arr [])),
         ("checklist", jsOrU (parsed.get? "checklist") (Js.arr [])),
         ("prBodySuggestion", jsOrU (parsed.get? "prBodySuggestion")
            (Js.obj [("sections", Js.arr [])])),
         ("verdict", Js.obj
           [("verdict", jsOrU (vd.get? "verdict") (Js.str "commented")),
            ("confidence", jsOrU (vd.get? "confidence") (Js.num 5 1)),
            ("summary", jsOrU (vd.get? "summary") (Js.str ""))])])
    else none
  | _, _, _ => none

/-- The body of `parseV2Response`'s `try` block: no span is an ordinary
`null` return, a `JSON.parse` failure is a thrown exception. -/
def parseV2Attempt (aiResponse : String) : Except Unit (Option Js) :=
  match extractSpan aiResponse.toList with
  | none => .ok none
  | some span =>
    match parseJsonText span with
    | none => .error ()
    | some parsed => .ok (validateV2 parsed)

/-- The embedding of `parseV2Response`: its `catch` maps any exception to
`null`. -/
def parseV2Response (aiResponse : String) : Option Js :=
  match parseV2Attempt aiResponse with
  | .ok r => r
  | .error _ => none

/-! ### The network layer and the public operations -/

/-- The fixed MiniMax completion endpoint. -/
def MINIMAX_API_URL : String := "https://api.minimax.io/v1/text/chatcompletion_v2"

/-- One outbound HTTP request, with its JSON payload kept structured. -/
structure Request where
  url : String
  method : String
  authBearer : String
  contentType : String
  payload : Js

/-- What one `fetch` invocation does: reject, or resolve to a response with
an `ok` flag, a status, and a body that `response.json()` either decodes or
rejects on. -/
inductive FetchOutcome where
  | throws
  | resp (ok : Bool) (status : Int) (body : Except Unit Js)

/-- The global `fetch`, supplied by the environment. -/
def FetchOracle : Type := Request → FetchOutcome

/-- An exception of the embedded JavaScript. -/
inductive JsErr where
  | fetchFailed
  | bodyNotJson
  | typeError

/-- The request either `generate*` function issues (they differ only in the
prompt and the token ceiling). -/
def mkRequest (config : MiniMaxConfig) (prompt : String) (maxTokens : Nat) : Request :=
  { url := MINIMAX_API_URL
    method := "POST"
    authBearer := "Bearer " ++ config.apiKey
    contentType := "application/json"
    payload := Js.obj
      [("model", .str "MiniMax-M2.5"),
       ("messages", .arr [.obj [("role", .str "user"), ("content", .str prompt)]]),
       ("groupId", .str config.groupId),
       ("temperature", .num 3 1),
       ("max_tokens", .num (maxTokens : Int) 0)] }

/-- JavaScript `v[0]`: first element of an array, first character of a
string, key `"0"` of an object, otherwise `undefined`. -/
def jsIndex0 : Js → Option Js
  | .arr (x :: _) => some x
  | .arr [] => none
  | .str s => if s.length > 0 then some (.str (s.take 1)) else none
  | .obj fs => Js.get? (.obj fs) "0"
  | _ => none

/-- One step of an optional chain `?.`: short-circuit on `undefined`/`null`. -/
def optChain (o : Option Js) (f : Js → Option Js) : Option Js :=
  match o with
  | none => none
  | some .null => none
  | some v => f v

/-- The embedding of `data.choices?.[0]?.message?.content`: a TypeError when
`data` itself is `null` (the one unguarded access), otherwise the chained
lookup. -/
def getContentE (data : Js) : Except JsErr (Option Js) :=
  match data with
  | .null => .error .typeError
  | _ =>
    .ok (optChain (optChain (optChain (data.get? "choices") jsIndex0)
          (fun v => v.get? "message")) (fun v => v.get? "content"))

/-- The `try` body of `generateV2Review` from the `fetch` on: a rejected
fetch or body, or a TypeError, is a thrown exception; a non-ok status is an
ordinary `null` return.  When `content || ''` is a truthy non-string, the
`.match` call inside `parseV2Response` throws a TypeError that
`parseV2Response`'s own `catch` turns into `null`. -/
def generateV2ReviewAttempt (oracle : FetchOracle) (req : Request) :
    Except JsErr (Option Js) :=
  match oracle req with
  | .throws => .error .fetchFailed
  | .resp ok _ body =>
    if ok then
      match body with
      | .error _ => .error .bodyNotJson
      | .ok data =>
        match getContentE data with
        | .error e => .error e
        | .ok content =>
          match jsOrU content (Js.str "") with
          | .str s => .ok (parseV2Response s)
          | _ => .ok none
    else .ok none

/-- The embedding of `generateV2Review`: credential check before any call,
then one fetch whose exceptions the surrounding `catch` maps to `null`.  The
second component lists every network call performed. -/
def generateV2Review (oracle : FetchOracle) (prContext : PRContext)
    (docType : DocTypeClassification) (semanticDiff : SemanticDiff)
    (findings : List ReviewFinding) (config : MiniMaxConfig)
    (codeFiles : Option (List CodeFileInfo)) : Option Js × List Request :=
  if config.apiKey = "" || config.groupId = "" then (none, [])
  else
    let prompt := buildRichPrompt prContext docType semanticDiff findings (codeFiles.getD [])
    let req := mkRequest config prompt 2000
    (match generateV2ReviewAttempt oracle req with
     | .ok r => r
     | .error _ => none,
     [req])

/-- The embedding of `generateV2PRDescription`. -/
def generateV2PRDescription (v2Output : V2ReviewOutput) : String :=
  if v2Output.prBodySuggestion.sections.length = 0 then ""
  else
    String.intercalate "\n\n"
      (v2Output.prBodySuggestion.sections.map (fun s => "## " ++ s.heading ++ "\n\n" ++ s.content))

/-- The `try` body of `generateAISummary` from the `fetch` on.  A non-ok
status returns `''` directly; on success the raw `content || ''` value is
returned with no parsing. -/
def generateAISummaryAttempt (oracle : FetchOracle) (req : Request) : Except JsErr Js :=
  match oracle req with
  | .throws => .error .fetchFailed
  | .resp ok _ body =>
    if ok then
      match body with
      | .error _ => .error .bodyNotJson
      | .ok data =>
        match getContentE data with
        | .error e => .error e
        | .ok content => .ok (jsOrU content (Js.str ""))
    else .ok (Js.str "")

/-- The embedding of `generateAISummary`: note there is no credential check —
the fetch is issued no matter what `config` holds; the `catch` maps any
exception to `''`. -/
def generateAISummary (oracle : FetchOracle) (docType : DocTypeClassification)
    (diff : SemanticDiff) (findings : List LegacyFinding) (config : MiniMaxConfig)
    (codeFiles : Option (List CodeFileInfo)) : Js × List Request :=
  let req := mkRequest config (legacyPrompt docType diff) 50
  (match generateAISummaryAttempt oracle req with
   | .ok r => r
   | .error _ => Js.str "",
   [req])

/-- The embedding of `generatePRDescription`, a direct delegation. -/
def generatePRDescription (oracle : FetchOracle) (docType : DocTypeClassification)
    (diff : SemanticDiff) (findings : List LegacyFinding) (config : MiniMaxConfig)
    (codeFiles : Option (List CodeFileInfo)) : Js × List Request :=
  generateAISummary oracle docType diff findings config codeFiles

example :
    parseV2Response
      "Here is the result: \x7b\"prIntent\":\"a\",\"changeOverview\":\"b\",\"verdict\":\x7b\"verdict\":\"approved\",\"confidence\":0.8,\"summary\":\"ok\"\x7d\x7d thanks" =
    some (Js.obj
      [("prIntent", .str "a"),
       ("changeOverview", .str "b"),
       ("keyRisks", .arr []),
       ("checklist", .arr []),
       ("prBodySuggestion", .obj [("sections", .arr [])]),
       ("verdict", .obj
         [("verdict", .str "approved"), ("confidence", .num 8 1), ("summary", .str "ok")])]) :=
  rfl

example : parseV2Response "no braces at all" = none := rfl

example :
    parseV2Response "\x7b\"prIntent\":\"a\",\"changeOverview\":\"b\"\x7d" = none := rfl

/-! ### The printer inverts through the parser: digit runs -/

theorem natCharsAux_congr :
    ∀ f1 n, n < 10 ^ (f1 + 1) → ∀ f2, n < 10 ^ (f2 + 1) → natCharsAux f1 n = natCharsAux f2 n := by
  intro f1
  induction f1 with
  | zero =>
    intro n h1 f2 h2
    have hn : n < 10 := by simpa using h1
    cases f2 <;> simp [natCharsAux, hn]
  | succ f ih =>
    intro n h1 f2 h2
    by_cases hn : n < 10
    · cases f2 <;> simp [natCharsAux, hn]
    · cases f2 with
      | zero => exact absurd h2 (by simpa using hn)
      | succ g =>
        have hd1 : n / 10 < 10 ^ (f + 1) :=
          (Nat.div_lt_iff_lt_mul (by omega : 0 < 10)).mpr
            (by calc n < 10 ^ (f + 1 + 1) := h1
                _ = 10 ^ (f + 1) * 10 := by ring)
        have hd2 : n / 10 < 10 ^ (g + 1) :=
          (Nat.div_lt_iff_lt_mul (by omega : 0 < 10)).mpr
            (by calc n < 10 ^ (g + 1 + 1) := h2
                _ = 10 ^ (g + 1) * 10 := by ring)
        simp only [natCharsAux, if_neg hn]
        rw [ih (n / 10) hd1 g hd2]

theorem lt_ten_pow (n : Nat) : n < 10 ^ (n + 1) :=
  lt_of_lt_of_le (Nat.lt_pow_self (by omega) n)
    (Nat.pow_le_pow_right (by omega) (Nat.le_succ n))

/-- The defining recurrence of `natChars`, fuel discharged. -/
theorem natChars_eq (n : Nat) :
    natChars n = if n < 10 then [digCh n] else natChars (n / 10) ++ [digCh (n % 10)] := by
  by_cases hn : n < 10
  · cases n <;> simp [natChars, natCharsAux, hn]
  · obtain ⟨f, rfl⟩ : ∃ f, n = f + 1 := ⟨n - 1, by omega⟩
    have hlt : (f + 1) / 10 < 10 ^ (f + 1) :=
      lt_trans (Nat.div_lt_self (by omega) (by omega)) (Nat.lt_pow_self (by omega) _)
    have hlt2 : (f + 1) / 10 < 10 ^ ((f + 1) / 10 + 1) := lt_ten_pow _
    simp only [natChars, natCharsAux, if_neg hn]
    rw [natCharsAux_congr f _ hlt _ hlt2]

/-- Everything about one digit character, checked over the ten of them. -/
theorem digCh_spec : ∀ d, d < 10 →
    (digCh d).toNat = 48 + d ∧ isDig (digCh d) = true ∧ (d ≠ 0 → digCh d ≠ '0') := by decide

theorem natChars_all_dig (n : Nat) : ∀ c ∈ natChars n, isDig c = true := by
  induction n using Nat.strong_induction_on with
  | _ n ih =>
    rw [natChars_eq]
    by_cases hn : n < 10
    · simpa [hn] using (digCh_spec n hn).2.1
    · simp only [if_neg hn]
      intro c hc
      rcases List.mem_append.mp hc with h | h
      · exact ih (n / 10) (Nat.div_lt_self (by omega) (by omega)) c h
      · rcases List.mem_singleton.mp h with rfl
        exact (digCh_spec (n % 10) (Nat.mod_lt _ (by omega))).2.1

theorem natChars_small {n : Nat} (hn : n < 10) : natChars n = [digCh n] := by
  rw [natChars_eq]; simp [hn]

theorem natChars_head (n : Nat) :
    ∃ c t, natChars n = c :: t ∧ isDig c = true ∧ (n ≠ 0 → c ≠ '0') := by
  induction n using Nat.strong_induction_on with
  | _ n ih =>
    by_cases hn : n < 10
    · exact ⟨digCh n, [], natChars_small hn, (digCh_spec n hn).2.1,
        fun h0 => (digCh_spec n hn).2.2 h0⟩
    · obtain ⟨c, t, hct, hd, h0⟩ := ih (n / 10) (Nat.div_lt_self (by omega) (by omega))
      refine ⟨c, t ++ [digCh (n % 10)], ?_, hd, fun _ => h0 (by omega)⟩
      rw [natChars_eq, if_neg hn, hct]
      simp

/-- `foldl` of the digit-value step from an arbitrary seed. -/
theorem charsNat_seed (xs : List Char) :
    ∀ a, xs.foldl (fun a c => 10 * a + (c.toNat - 48)) a = a * 10 ^ xs.length + charsNat xs := by
  induction xs with
  | nil => intro a; simp [charsNat]
  | cons c t ih =>
    intro a
    simp only [List.foldl_cons]
    rw [ih (10 * a + (c.toNat - 48))]
    have h2 : charsNat (c :: t) = (10 * 0 + (c.toNat - 48)) * 10 ^ t.length + charsNat t := by
      simp only [charsNat, List.foldl_cons]
      exact ih _
    rw [h2]
    simp only [List.length_cons, pow_succ]
    ring

theorem charsNat_append (xs ys : List Char) :
    charsNat (xs ++ ys) = charsNat xs * 10 ^ ys.length + charsNat ys := by
  simp only [charsNat, List.foldl_append]
  exact charsNat_seed ys _

theorem charsNat_natChars (n : Nat) : charsNat (natChars n) = n := by
  induction n using Nat.strong_induction_on with
  | _ n ih =>
    rw [natChars_eq]
    by_cases hn : n < 10
    · simp only [if_pos hn, charsNat, List.foldl_cons, List.foldl_nil]
      have := (digCh_spec n hn).1
      omega
    · rw [if_neg hn, charsNat_append, ih (n / 10) (Nat.div_lt_self (by omega) (by omega))]
      have := (digCh_spec (n % 10) (Nat.mod_lt _ (by omega))).1
      simp only [List.length_singleton, pow_one, charsNat, List.foldl_cons, List.foldl_nil]
      omega

theorem charsNat_rep_zero (k : Nat) (xs : List Char) :
    charsNat (List.replicate k '0' ++ xs) = charsNat xs := by
  induction k with
  | zero => simp
  | succ k ih =>
    rw [List.replicate_succ, List.cons_append]
    simpa [charsNat, List.foldl_cons] using ih

/-- A `takeWhile`-blocked remainder is returned whole by `dropWhile`. -/
theorem dropWhile_of_takeWhile_nil {p : Char → Bool} {cs : List Char}
    (h : cs.takeWhile p = []) : cs.dropWhile p = cs := by
  cases cs with
  | nil => rfl
  | cons c t =>
    rw [List.takeWhile_cons] at h
    by_cases hc : p c = true
    · simp [hc] at h
    · simp at hc
      rw [List.dropWhile_cons, hc]
      simp

theorem numStop_takeWhile {cs : List Char} (h : numStop cs = true) :
    cs.takeWhile isDig = [] := by
  cases cs with
  | nil => rfl
  | cons c t =>
    simp only [numStop, Bool.not_eq_true', Bool.or_eq_false_iff] at h
    rw [List.takeWhile_cons, h.1]
    simp

/-- A digit run followed by a blocked remainder splits exactly there. -/
theorem digitRun_split (ds : List Char) (rest : List Char)
    (hds : ∀ c ∈ ds, isDig c = true) (hrest : rest.takeWhile isDig = []) :
    (ds ++ rest).takeWhile isDig = ds ∧ (ds ++ rest).dropWhile isDig = rest := by
  induction ds with
  | nil => exact ⟨hrest, dropWhile_of_takeWhile_nil hrest⟩
  | cons c t ih =>
    have hc : isDig c = true := hds c (List.mem_cons_self c t)
    obtain ⟨h1, h2⟩ := ih (fun x hx => hds x (List.mem_cons_of_mem c hx))
    constructor
    · rw [List.cons_append, List.takeWhile_cons, hc]
      simp [h1]
    · rw [List.cons_append, List.dropWhile_cons, hc]
      simpa using h2

/-! ### The printer inverts through the parser: numerals -/

/-- What a digit character cannot be, in one bundle. -/
theorem isDig_ne {c : Char} (h : isDig c = true) :
    c ≠ '-' ∧ c ≠ '.' ∧ c ≠ ']' ∧ c ≠ '}' ∧ c ≠ ',' ∧ c ≠ ':' ∧ c ≠ 'n' ∧ c ≠ 't' ∧
      c ≠ 'f' ∧ c ≠ '"' ∧ c ≠ '[' ∧ c ≠ '{' := by
  refine ⟨?_, ?_, ?_, ?_, ?_, ?_, ?_, ?_, ?_, ?_, ?_, ?_⟩
  all_goals (intro he; rw [he] at h; exact absurd h (by decide))

/-- A digit is not JSON whitespace. -/
theorem isDig_not_ws {c : Char} (h : isDig c = true) : isWs c = false := by
  simp only [isWs, Bool.or_eq_false_iff, beq_eq_false_iff_ne]
  refine ⟨⟨⟨?_, ?_⟩, ?_⟩, ?_⟩
  all_goals (intro he; rw [he] at h; exact absurd h (by decide))

theorem numStop_head {c : Char} {t : List Char} (h : numStop (c :: t) = true) :
    isDig c = false ∧ c ≠ '.' := by
  simp only [numStop, Bool.not_eq_true', Bool.or_eq_false_iff, beq_eq_false_iff_ne] at h
  exact h

theorem pFrac_stop (iv : Nat) {cs : List Char} (h : numStop cs = true) :
    pFrac iv cs = some ((iv, 0), cs) := by
  cases cs with
  | nil => rfl
  | cons c t =>
    obtain ⟨-, hdot⟩ := numStop_head h
    simp [pFrac, hdot]

theorem emitNumAbs_zero_e (n : Nat) : emitNumAbs n 0 = natChars n := by
  simp [emitNumAbs]

theorem pNumAbs_emit (n e : Nat) (rest : List Char) (hstop : numStop rest = true) :
    pNumAbs (emitNumAbs n e ++ rest) = some ((n, e), rest) := by
  by_cases he : e = 0
  · subst he
    rw [emitNumAbs_zero_e]
    by_cases hn : n = 0
    · subst hn
      have h0 : natChars 0 = ['0'] := natChars_small (by omega)
      rw [h0, List.cons_append]
      simp only [pNumAbs, if_pos rfl]
      exact pFrac_stop 0 hstop
    · obtain ⟨c, t, hct, hdig, h0⟩ := natChars_head n
      have hsplit := digitRun_split (natChars n) rest (natChars_all_dig n)
        (numStop_takeWhile hstop)
      rw [hct] at hsplit ⊢
      rw [List.cons_append]
      simp only [pNumAbs, if_neg (h0 hn), if_pos hdig]
      rw [← List.cons_append, hsplit.1, hsplit.2, ← hct, charsNat_natChars]
      exact pFrac_stop n hstop
  · obtain ⟨e, rfl⟩ : ∃ e', e = e' + 1 := ⟨e - 1, by omega⟩
    simp only [emitNumAbs, if_neg he]
    by_cases hpad : (natChars n).length < e + 1 + 1
    · -- the integer part is a lone padded zero
      obtain ⟨c0, t0, hct0, -, -⟩ := natChars_head n
      have hlen1 : 1 ≤ (natChars n).length := by rw [hct0]; simp
      obtain ⟨k, hk⟩ : ∃ k, e + 1 + 1 - (natChars n).length = k + 1 :=
        ⟨e + 1 + 1 - (natChars n).length - 1, by omega⟩
      rw [if_pos hpad, hk, List.replicate_succ, List.cons_append]
      have hlen : ('0' :: (List.replicate k '0' ++ natChars n)).length = e + 1 + 1 := by
        simp only [List.length_cons, List.length_append, List.length_replicate]
        omega
      rw [hlen]
      have hone : e + 1 + 1 - (e + 1) = 1 := by omega
      rw [hone]
      have htake : ('0' :: (List.replicate k '0' ++ natChars n)).take 1 = ['0'] := rfl
      have hdrop : ('0' :: (List.replicate k '0' ++ natChars n)).drop 1 =
          List.replicate k '0' ++ natChars n := rfl
      rw [htake, hdrop]
      have hdigs : ∀ c ∈ List.replicate k '0' ++ natChars n, isDig c = true := by
        intro c hc
        rcases List.mem_append.mp hc with h | h
        · rw [(List.mem_replicate.mp h).2]; decide
        · exact natChars_all_dig n c h
      have hsplit := digitRun_split (List.replicate k '0' ++ natChars n) rest hdigs
        (numStop_takeWhile hstop)
      have hfslen : (List.replicate k '0' ++ natChars n).length = e + 1 := by
        simp only [List.length_append, List.length_replicate]
        omega
      have hinput : (['0'] ++ '.' :: (List.replicate k '0' ++ natChars n)) ++ rest =
          '0' :: ('.' :: ((List.replicate k '0' ++ natChars n) ++ rest)) := by
        simp
      rw [hinput]
      simp only [pNumAbs, if_pos rfl]
      simp only [pFrac, if_pos rfl]
      rw [hsplit.1, hsplit.2]
      have hne : (List.replicate k '0' ++ natChars n).isEmpty = false := by
        cases h' : List.replicate k '0' ++ natChars n with
        | nil =>
          have := congrArg List.length h'
          simp [hct0] at this
        | cons a b => rfl
      rw [hne]
      simp [hfslen, charsNat_rep_zero, charsNat_natChars]
    · -- the digits of `n` are long enough on their own
      rw [if_neg hpad]
      have hge : e + 1 + 1 ≤ (natChars n).length := by omega
      have hn10 : ¬ n < 10 := by
        intro h10
        rw [natChars_small h10] at hge
        simp at hge
      obtain ⟨c, t, hct, hdig, h0⟩ := natChars_head n
      have hc0 : c ≠ '0' := h0 (by omega)
      set L := (natChars n).length with hL
      have hLe : L - (e + 1) = (L - (e + 1) - 1) + 1 := by omega
      have htake_cons : (natChars n).take (L - (e + 1)) = c :: t.take (L - (e + 1) - 1) := by
        rw [hct, hLe]
        rfl
      have hint_digs : ∀ x ∈ (natChars n).take (L - (e + 1)), isDig x = true :=
        fun x hx => natChars_all_dig n x (List.take_subset _ _ hx)
      have hfrac_digs : ∀ x ∈ (natChars n).drop (L - (e + 1)), isDig x = true :=
        fun x hx => natChars_all_dig n x (List.drop_subset _ _ hx)
      have hfrac_len : ((natChars n).drop (L - (e + 1))).length = e + 1 := by
        rw [List.length_drop]
        omega
      have hdotstop : ('.' :: ((natChars n).drop (L - (e + 1)) ++ rest)).takeWhile isDig = [] := by
        rw [List.takeWhile_cons]
        simp [isDig]
      have hsplit := digitRun_split ((natChars n).take (L - (e + 1)))
        ('.' :: ((natChars n).drop (L - (e + 1)) ++ rest)) hint_digs hdotstop
      have hfsplit := digitRun_split ((natChars n).drop (L - (e + 1))) rest hfrac_digs
        (numStop_takeWhile hstop)
      have hinput : ((natChars n).take (L - (e + 1)) ++ '.' :: (natChars n).drop (L - (e + 1)))
            ++ rest =
          c :: (t.take (L - (e + 1) - 1)
            ++ ('.' :: ((natChars n).drop (L - (e + 1)) ++ rest))) := by
        rw [htake_cons]
        simp
      rw [hinput]
      simp only [pNumAbs, if_neg hc0, if_pos hdig]
      have hCR : c :: (t.take (L - (e + 1) - 1)
            ++ ('.' :: ((natChars n).drop (L - (e + 1)) ++ rest))) =
          (natChars n).take (L - (e + 1))
            ++ ('.' :: ((natChars n).drop (L - (e + 1)) ++ rest)) := by
        rw [htake_cons]
        simp
      rw [hCR, hsplit.1, hsplit.2]
      simp only [pFrac, if_pos rfl]
      rw [hfsplit.1, hfsplit.2]
      have hBne : ((natChars n).drop (L - (e + 1))).isEmpty = false := by
        cases hB : (natChars n).drop (L - (e + 1)) with
        | nil => rw [hB] at hfrac_len; simp at hfrac_len
        | cons a b => rfl
      rw [hBne, ← charsNat_append, List.take_append_drop, charsNat_natChars, hfrac_len]
      simp

/-- A printed unsigned numeral starts with a digit. -/
theorem emitNumAbs_head (n e : Nat) : ∃ c t, emitNumAbs n e = c :: t ∧ isDig c = true := by
  have h := pNumAbs_emit n e [] rfl
  cases hA : emitNumAbs n e with
  | nil =>
    rw [hA] at h
    simp [pNumAbs] at h
  | cons c t =>
    rw [hA] at h
    by_cases hd : isDig c = true
    · exact ⟨c, t, rfl, hd⟩
    · have hc0 : c ≠ '0' := by
        intro he
        rw [he] at hd
        exact hd (by decide)
      rw [List.cons_append] at h
      simp only [pNumAbs, if_neg hc0, hd] at h
      simp at h

theorem pNum_emit (m : Int) (e : Nat) (rest : List Char) (hstop : numStop rest = true) :
    pNum (emitNum m e ++ rest) = some (Js.num m e, rest) := by
  by_cases hm : m < 0
  · have hsh : emitNum m e ++ rest = '-' :: (emitNumAbs m.natAbs e ++ rest) := by
      simp [emitNum, if_pos hm]
    rw [hsh]
    simp only [pNum, if_pos rfl]
    rw [pNumAbs_emit _ _ _ hstop]
    simp only [Option.map_some']
    have : -((m.natAbs : Nat) : Int) = m := by omega
    rw [this]
    simp
  · obtain ⟨c, t, hct, hd⟩ := emitNumAbs_head m.natAbs e
    have hcm : c ≠ '-' := (isDig_ne hd).1
    have hsh : emitNum m e ++ rest = c :: (t ++ rest) := by
      simp [emitNum, if_neg hm, hct]
    rw [hsh]
    simp only [pNum, if_neg hcm]
    rw [← List.cons_append, ← hct, pNumAbs_emit _ _ _ hstop]
    simp only [Option.map_some']
    have : ((m.natAbs : Nat) : Int) = m := by omega
    rw [this]

/-! ### The printer inverts through the parser: strings -/

theorem hexVal_hexCh : ∀ d, d < 16 → hexVal? (hexCh d) = some d := by decide

theorem pStrAux_esc (c : Char) (acc rest : List Char) :
    pStrAux (escChar c ++ rest) acc = pStrAux rest (c :: acc) := by
  by_cases h1 : c = '"'
  · subst h1; simp only [escChar]; rw [pStrAux.eq_def]; simp [unescCh?]
  by_cases h2 : c = '\\'
  · subst h2; simp only [escChar]; rw [pStrAux.eq_def]; simp [unescCh?]
  by_cases h3 : c = Char.ofNat 8
  · subst h3; simp only [escChar]; rw [pStrAux.eq_def]; simp [unescCh?]
  by_cases h4 : c = Char.ofNat 9
  · subst h4; simp only [escChar]; rw [pStrAux.eq_def]; simp [unescCh?]
  by_cases h5 : c = Char.ofNat 10
  · subst h5; simp only [escChar]; rw [pStrAux.eq_def]; simp [unescCh?]
  by_cases h6 : c = Char.ofNat 12
  · subst h6; simp only [escChar]; rw [pStrAux.eq_def]; simp [unescCh?]
  by_cases h7 : c = Char.ofNat 13
  · subst h7; simp only [escChar]; rw [pStrAux.eq_def]; simp [unescCh?]
  by_cases h8 : c.toNat < 32
  · -- the `\u00XX` escape of an unnamed control character
    have hesc : escChar c =
        ['\\', 'u', '0', '0', hexCh (c.toNat / 16), hexCh (c.toNat % 16)] := by
      simp only [escChar, if_neg h1, if_neg h2, if_neg h3, if_neg h4, if_neg h5, if_neg h6,
        if_neg h7, if_pos h8]
    rw [hesc]
    have hhi := hexVal_hexCh (c.toNat / 16) (by omega)
    have hlo := hexVal_hexCh (c.toNat % 16) (by omega)
    rw [List.cons_append, pStrAux.eq_def]
    simp only [List.cons_append, reduceIte, hhi, hlo]
    have h0v : hexVal? '0' = some 0 := rfl
    have hveq : c.toNat / 16 * 16 + c.toNat % 16 = c.toNat := by omega
    have hlt : c.toNat < 55296 := by omega
    simp [h0v, hveq, Char.ofNat_toNat, hlt]
  · -- an ordinary character is emitted and consumed verbatim
    have hesc : escChar c = [c] := by
      simp only [escChar, if_neg h1, if_neg h2, if_neg h3, if_neg h4, if_neg h5, if_neg h6,
        if_neg h7, if_neg h8]
    rw [hesc, List.cons_append, List.nil_append, pStrAux.eq_def]
    simp [h1, h2, h8]

theorem pStrAux_body (cs : List Char) : ∀ acc rest,
    pStrAux ((cs.map escChar).flatten ++ '"' :: rest) acc =
      some ((acc.reverse ++ cs).asString, rest) := by
  induction cs with
  | nil =>
    intro acc rest
    rw [List.map_nil, List.flatten_nil, List.nil_append, pStrAux.eq_def]
    simp
  | cons c cs ih =>
    intro acc rest
    rw [List.map_cons, List.flatten_cons, List.append_assoc, pStrAux_esc, ih]
    simp

/-- The string codec round trip: a printed string body parses back to itself. -/
theorem pStr_emit (s : String) (rest : List Char) :
    pStrAux (emitStrBody s ++ '"' :: rest) [] = some (s, rest) := by
  rw [emitStrBody, pStrAux_body]
  rfl

/-! ### The printer inverts through the parser: values -/

/-- Every rendered value starts with a character that is neither whitespace
nor a closing token. -/
theorem emit_head (j : Js) :
    ∃ c t, emit j = c :: t ∧ isWs c = false ∧ c ≠ ']' ∧ c ≠ '}' ∧ c ≠ ',' ∧ c ≠ ':' := by
  cases j with
  | null => exact ⟨'n', _, rfl, by decide, by decide, by decide, by decide, by decide⟩
  | bool b =>
    cases b with
    | true => exact ⟨'t', _, rfl, by decide, by decide, by decide, by decide, by decide⟩
    | false => exact ⟨'f', _, rfl, by decide, by decide, by decide, by decide, by decide⟩
  | num m e =>
    by_cases hm : m < 0
    · refine ⟨'-', emitNumAbs m.natAbs e, ?_, by decide, by decide, by decide, by decide,
        by decide⟩
      simp [emit, emitNum, hm]
    · obtain ⟨c, t, hct, hd⟩ := emitNumAbs_head m.natAbs e
      have h := isDig_ne hd
      refine ⟨c, t, ?_, isDig_not_ws hd, h.2.2.1, h.2.2.2.1, h.2.2.2.2.1, h.2.2.2.2.2.1⟩
      simp [emit, emitNum, hm, hct]
  | str s => exact ⟨'"', _, rfl, by decide, by decide, by decide, by decide, by decide⟩
  | arr es => exact ⟨'[', _, rfl, by decide, by decide, by decide, by decide, by decide⟩
  | obj fs => exact ⟨'{', _, rfl, by decide, by decide, by decide, by decide, by decide⟩

theorem skipWs_cons {c : Char} (h : isWs c = false) (cs : List Char) :
    skipWs (c :: cs) = c :: cs := by
  simp [skipWs, h]

theorem skipWs_emit (j : Js) (x : List Char) : skipWs (emit j ++ x) = emit j ++ x := by
  obtain ⟨c, t, hct, hw, -, -, -, -⟩ := emit_head j
  rw [hct, List.cons_append, skipWs_cons hw]

/-- The first comma-separated item list of a nonempty array begins with its
first element's rendering. -/
theorem emitItems_cons_decomp (e : Js) (es : List Js) :
    ∃ x, emitItems (e :: es) = emit e ++ x ∧
      (es = [] → x = []) ∧ (es ≠ [] → x = ',' :: emitItems es) := by
  cases es with
  | nil =>
    refine ⟨[], by simp [emitItems], ?_, ?_⟩
    · intro h
      rfl
    · intro h
      exact absurd rfl h
  | cons y ys =>
    refine ⟨',' :: emitItems (y :: ys), by simp [emitItems], ?_, ?_⟩
    · intro h
      exact absurd h (by simp)
    · intro h
      rfl

theorem skipWs_emitItems (e : Js) (es : List Js) (x : List Char) :
    skipWs (emitItems (e :: es) ++ x) = emitItems (e :: es) ++ x := by
  obtain ⟨y, hy, -, -⟩ := emitItems_cons_decomp e es
  rw [hy, List.append_assoc, skipWs_emit, ← List.append_assoc]

theorem emitFields_cons_decomp (k : String) (v : Js) (fs : List (String × Js)) :
    ∃ x, emitFields ((k, v) :: fs) = '"' :: (emitStrBody k ++ ('"' :: (':' :: (emit v ++ x)))) ∧
      (fs = [] → x = []) ∧ (fs ≠ [] → x = ',' :: emitFields fs) := by
  cases fs with
  | nil =>
    refine ⟨[], ?_, ?_, ?_⟩
    · simp [emitFields, emitStr]
    · intro h
      rfl
    · intro h
      exact absurd rfl h
  | cons kv fs' =>
    refine ⟨',' :: emitFields (kv :: fs'), ?_, ?_, ?_⟩
    · obtain ⟨k2, v2⟩ := kv
      simp [emitFields, emitStr]
    · intro h
      exact absurd h (by simp)
    · intro h
      rfl

/-- On input headed by a sign or digit, `pValue` reduces to the numeral
parser. -/
theorem pValue_dispatch_num (fuel : Nat) (c : Char) (t : List Char)
    (hws : isWs c = false) (hd : c = '-' ∨ isDig c = true) :
    pValue (fuel + 1) (c :: t) = pNum (c :: t) := by
  have h6 : c ≠ 'n' ∧ c ≠ 't' ∧ c ≠ 'f' ∧ c ≠ '"' ∧ c ≠ '[' ∧ c ≠ '{' := by
    rcases hd with rfl | hdig
    · exact ⟨by decide, by decide, by decide, by decide, by decide, by decide⟩
    · obtain ⟨-, -, -, -, -, -, a7, a8, a9, a10, a11, a12⟩ := isDig_ne hdig
      exact ⟨a7, a8, a9, a10, a11, a12⟩
  conv_lhs => rw [pValue.eq_def]
  simp only [skipWs_cons hws]
  simp only [if_neg h6.1, if_neg h6.2.1, if_neg h6.2.2.1, if_neg h6.2.2.2.1,
    if_neg h6.2.2.2.2.1, if_neg h6.2.2.2.2.2]
  rcases hd with rfl | hdig
  · simp
  · simp [hdig]

mutual

/-- Round trip for one value: parsing a rendered value consumes exactly its
rendering, provided the fuel outruns its length and the remainder cannot
extend a numeral. -/
theorem rt_val : ∀ (j : Js) (fuel : Nat) (rest : List Char),
    (emit j).length < fuel → numStop rest = true →
    pValue fuel (emit j ++ rest) = some (j, rest)
  | .null, fuel, rest, hf, _ => by
    cases fuel with
    | zero => exact absurd hf (Nat.not_lt_zero _)
    | succ f =>
      rw [show emit Js.null ++ rest = 'n' :: 'u' :: 'l' :: 'l' :: rest from rfl]
      conv_lhs => rw [pValue.eq_def]
      simp only [skipWs_cons (by decide : isWs 'n' = false)]
      simp [List.isPrefixOf]
  | .bool true, fuel, rest, hf, _ => by
    cases fuel with
    | zero => exact absurd hf (Nat.not_lt_zero _)
    | succ f =>
      rw [show emit (Js.bool true) ++ rest = 't' :: 'r' :: 'u' :: 'e' :: rest from rfl]
      conv_lhs => rw [pValue.eq_def]
      simp only [skipWs_cons (by decide : isWs 't' = false)]
      simp [List.isPrefixOf]
  | .bool false, fuel, rest, hf, _ => by
    cases fuel with
    | zero => exact absurd hf (Nat.not_lt_zero _)
    | succ f =>
      rw [show emit (Js.bool false) ++ rest = 'f' :: 'a' :: 'l' :: 's' :: 'e' :: rest from rfl]
      conv_lhs => rw [pValue.eq_def]
      simp only [skipWs_cons (by decide : isWs 'f' = false)]
      simp [List.isPrefixOf]
  | .num m e, fuel, rest, hf, hr => by
    cases fuel with
    | zero => exact absurd hf (Nat.not_lt_zero _)
    | succ f =>
      by_cases hm : m < 0
      · have hsh : emit (Js.num m e) ++ rest = '-' :: (emitNumAbs m.natAbs e ++ rest) := by
          simp [emit, emitNum, hm]
        have hnum : '-' :: (emitNumAbs m.natAbs e ++ rest) = emitNum m e ++ rest := by
          simp [emitNum, hm]
        rw [hsh, pValue_dispatch_num f _ _ (by decide) (Or.inl rfl), hnum,
          pNum_emit _ _ _ hr]
      · obtain ⟨c, t, hct, hd⟩ := emitNumAbs_head m.natAbs e
        have hsh : emit (Js.num m e) ++ rest = c :: (t ++ rest) := by
          simp [emit, emitNum, hm, hct]
        have hnum : c :: (t ++ rest) = emitNum m e ++ rest := by
          simp [emitNum, hm, hct]
        rw [hsh, pValue_dispatch_num f _ _ (isDig_not_ws hd) (Or.inr hd), hnum,
          pNum_emit _ _ _ hr]
  | .str s, fuel, rest, hf, _ => by
    cases fuel with
    | zero => exact absurd hf (Nat.not_lt_zero _)
    | succ f =>
      have hsh : emit (Js.str s) ++ rest = '"' :: (emitStrBody s ++ ('"' :: rest)) := by
        simp [emit, emitStr]
      rw [hsh]
      conv_lhs => rw [pValue.eq_def]
      simp only [skipWs_cons (by decide : isWs '"' = false)]
      simp [pStr_emit]
  | .arr [], fuel, rest, hf, _ => by
    cases fuel with
    | zero => exact absurd hf (Nat.not_lt_zero _)
    | succ f =>
      have hsh : emit (Js.arr []) ++ rest = '[' :: (']' :: rest) := by
        simp [emit, emitItems]
      rw [hsh]
      conv_lhs => rw [pValue.eq_def]
      simp only [skipWs_cons (by decide : isWs '[' = false)]
      simp [skipWs, isWs]
  | .arr (e :: es), fuel, rest, hf, _ => by
    cases fuel with
    | zero => exact absurd hf (Nat.not_lt_zero _)
    | succ f =>
      obtain ⟨x, hx, hxnil, hxcons⟩ := emitItems_cons_decomp e es
      have hsh : emit (Js.arr (e :: es)) ++ rest =
          '[' :: (emitItems (e :: es) ++ (']' :: rest)) := by
        simp [emit]
      rw [hsh]
      conv_lhs => rw [pValue.eq_def]
      simp only [skipWs_cons (by decide : isWs '[' = false)]
      obtain ⟨ch, tl, hch, hws, hbr, -, -, -⟩ := emit_head e
      have hhead : emitItems (e :: es) ++ ']' :: rest = ch :: (tl ++ (x ++ (']' :: rest))) := by
        rw [hx, hch]
        simp
      rw [skipWs_emitItems e es (']' :: rest), hhead]
      simp only [if_neg hbr]
      rw [← hhead]
      have hlen : (emitItems (e :: es)).length + 1 < f := by
        have h2 : (emit (Js.arr (e :: es))).length = (emitItems (e :: es)).length + 2 := by
          simp [emit]
        omega
      rw [rt_items e es f rest hlen]
      rfl
  | .obj [], fuel, rest, hf, _ => by
    cases fuel with
    | zero => exact absurd hf (Nat.not_lt_zero _)
    | succ f =>
      have hsh : emit (Js.obj []) ++ rest = '{' :: ('}' :: rest) := by
        simp [emit, emitFields]
      rw [hsh]
      conv_lhs => rw [pValue.eq_def]
      simp only [skipWs_cons (by decide : isWs '{' = false)]
      simp [skipWs, isWs]
  | .obj ((k, v) :: fs), fuel, rest, hf, _ => by
    cases fuel with
    | zero => exact absurd hf (Nat.not_lt_zero _)
    | succ f =>
      obtain ⟨x, hx, hxnil, hxcons⟩ := emitFields_cons_decomp k v fs
      have hsh : emit (Js.obj ((k, v) :: fs)) ++ rest =
          '{' :: (emitFields ((k, v) :: fs) ++ ('}' :: rest)) := by
        simp [emit]
      rw [hsh]
      conv_lhs => rw [pValue.eq_def]
      simp only [skipWs_cons (by decide : isWs '{' = false)]
      have hhead : emitFields ((k, v) :: fs) ++ '}' :: rest =
          '"' :: ((emitStrBody k ++ ('"' :: (':' :: (emit v ++ x)))) ++ '}' :: rest) := by
        rw [hx]
        simp
      have hskip : skipWs (emitFields ((k, v) :: fs) ++ '}' :: rest) =
          emitFields ((k, v) :: fs) ++ '}' :: rest := by
        conv_lhs => rw [hhead]
        rw [skipWs_cons (by decide : isWs '"' = false), ← hhead]
      rw [hskip]
      conv_lhs => rw [hhead]
      simp only [if_neg (by decide : ¬('"' = '}'))]
      rw [← hhead]
      have hlen : (emitFields ((k, v) :: fs)).length + 1 < f := by
        have h2 : (emit (Js.obj ((k, v) :: fs))).length =
            (emitFields ((k, v) :: fs)).length + 2 := by
          simp [emit]
        omega
      rw [rt_fields (k, v) fs f rest hlen]
      rfl
termination_by j _ _ _ _ => sizeOf j

theorem rt_items : ∀ (e : Js) (es : List Js) (fuel : Nat) (rest : List Char),
    (emitItems (e :: es)).length + 1 < fuel →
    pItems fuel (emitItems (e :: es) ++ ']' :: rest) = some (e :: es, rest)
  | e, es, fuel, rest, hf => by
    cases fuel with
    | zero => exact absurd hf (by omega)
    | succ f =>
      cases es with
      | nil =>
        have hitems : emitItems [e] = emit e := by simp [emitItems]
        have hlen : (emit e).length < f := by
          rw [hitems] at hf
          omega
        conv_lhs => rw [pItems.eq_def]
        rw [hitems]
        simp only [rt_val e f (']' :: rest) hlen rfl]
        simp [skipWs, isWs]
      | cons y ys =>
        have hitems : emitItems (e :: y :: ys) = emit e ++ ',' :: emitItems (y :: ys) := by
          simp [emitItems]
        have hlens := congrArg List.length hitems
        simp only [List.length_append, List.length_cons] at hlens
        have hlen1 : (emit e).length < f := by omega
        have hlen2 : (emitItems (y :: ys)).length + 1 < f := by omega
        conv_lhs => rw [pItems.eq_def]
        rw [hitems]
        have hsh : (emit e ++ ',' :: emitItems (y :: ys)) ++ ']' :: rest =
            emit e ++ (',' :: (emitItems (y :: ys) ++ ']' :: rest)) := by
          simp
        rw [hsh]
        simp only [rt_val e f (',' :: (emitItems (y :: ys) ++ ']' :: rest)) hlen1 rfl]
        simp only [skipWs_cons (by decide : isWs ',' = false), reduceIte]
        rw [rt_items y ys f rest hlen2]
        rfl
termination_by e es _ _ _ => sizeOf e + sizeOf es

theorem rt_fields : ∀ (kv : String × Js) (fs : List (String × Js)) (fuel : Nat)
    (rest : List Char),
    (emitFields (kv :: fs)).length + 1 < fuel →
    pFields fuel (emitFields (kv :: fs) ++ '}' :: rest) = some (kv :: fs, rest)
  | (k, v), fs, fuel, rest, hf => by
    cases fuel with
    | zero => exact absurd hf (by omega)
    | succ f =>
      obtain ⟨x, hx, hxnil, hxcons⟩ := emitFields_cons_decomp k v fs
      have hsh : ('"' :: (emitStrBody k ++ ('"' :: (':' :: (emit v ++ x))))) ++ '}' :: rest =
          '"' :: (emitStrBody k ++ ('"' :: (':' :: (emit v ++ (x ++ '}' :: rest))))) := by
        simp
      conv_lhs => rw [pFields.eq_def]
      rw [hx, hsh]
      simp only [skipWs_cons (by decide : isWs '"' = false), reduceIte]
      rw [pStr_emit k (':' :: (emit v ++ (x ++ '}' :: rest)))]
      simp only [skipWs_cons (by decide : isWs ':' = false), reduceIte]
      cases fs with
      | nil =>
        have hx0 : x = [] := hxnil rfl
        subst hx0
        have h2 := congrArg List.length hx
        simp only [List.length_cons, List.length_append, List.append_nil] at h2
        have hlenv : (emit v).length < f := by omega
        simp only [List.nil_append]
        rw [rt_val v f ('}' :: rest) hlenv rfl]
        simp [skipWs, isWs]
      | cons kv2 fs2 =>
        have hx1 : x = ',' :: emitFields (kv2 :: fs2) := hxcons (by simp)
        subst hx1
        have h2 := congrArg List.length hx
        simp only [List.length_cons, List.length_append] at h2
        have hlenv : (emit v).length < f := by omega
        have hlenf : (emitFields (kv2 :: fs2)).length + 1 < f := by omega
        have hend : emit v ++ ((',' :: emitFields (kv2 :: fs2)) ++ '}' :: rest) =
            emit v ++ (',' :: (emitFields (kv2 :: fs2) ++ '}' :: rest)) := by
          simp
        rw [hend, rt_val v f (',' :: (emitFields (kv2 :: fs2) ++ '}' :: rest)) hlenv rfl]
        simp only [skipWs_cons (by decide : isWs ',' = false), reduceIte]
        rw [rt_fields kv2 fs2 f rest hlenf]
        rfl
termination_by kv fs _ _ _ => sizeOf kv + sizeOf fs

end

/-- The full codec round trip: `JSON.parse` of `JSON.stringify` output is the
identity. -/
theorem parseJsonText_emit (j : Js) : parseJsonText (emit j) = some j := by
  have hlen : (emit j).length < 2 * (emit j).length + 1 := by omega
  have h := rt_val j (2 * (emit j).length + 1) [] hlen rfl
  rw [List.append_nil] at h
  rw [parseJsonText, h]
  simp [skipWs]

/-- Finding the first marked element after an unmarked prefix. -/
theorem findIdx_first {p : Char → Bool} :
    ∀ (pre : List Char), (∀ c ∈ pre, p c = false) →
      ∀ (x : Char) (rest : List Char) (i : Nat), p x = true →
        List.findIdx? p (pre ++ x :: rest) i = some (i + pre.length) := by
  intro pre
  induction pre with
  | nil =>
    intro _ x rest i hx
    simp [List.findIdx?_cons, hx]
  | cons c t ih =>
    intro hall x rest i hx
    rw [List.cons_append, List.findIdx?_cons, hall c (List.mem_cons_self c t)]
    rw [ih (fun d hd => hall d (List.mem_cons_of_mem c hd)) x rest (i + 1) hx]
    simp only [Bool.false_eq_true, if_false, List.length_cons]
    congr 1
    omega

/-- The regex span: on prose-wrapped braces the match is exactly the text
from the first `\x7b` to the last `\x7d`. -/
theorem extractSpan_wrap (pre mid suf : List Char)
    (hpre : ∀ c ∈ pre, c ≠ '{') (hsuf : ∀ c ∈ suf, c ≠ '}') :
    extractSpan (pre ++ ('{' :: (mid ++ ['}'])) ++ suf) = some ('{' :: (mid ++ ['}'])) := by
  have hsh1 : pre ++ ('{' :: (mid ++ ['}'])) ++ suf =
      pre ++ '{' :: ((mid ++ ['}']) ++ suf) := by
    simp
  have hfind1 : List.findIdx? (fun c => c = '{') (pre ++ '{' :: ((mid ++ ['}']) ++ suf)) 0 =
      some (0 + pre.length) :=
    findIdx_first pre (fun c hc => decide_eq_false (hpre c hc)) '{' _ 0 (by simp)
  have hsh2 : (pre ++ ('{' :: (mid ++ ['}'])) ++ suf).reverse =
      suf.reverse ++ '}' :: (mid.reverse ++ ('{' :: pre.reverse)) := by
    simp
  have hfind2 : List.findIdx? (fun c => c = '}')
        (suf.reverse ++ '}' :: (mid.reverse ++ ('{' :: pre.reverse))) 0 =
      some (0 + suf.reverse.length) :=
    findIdx_first suf.reverse
      (fun c hc => decide_eq_false (hsuf c (List.mem_reverse.mp hc))) '}' _ 0 (by simp)
  rw [extractSpan, hsh1, hfind1, ← hsh1, hsh2, hfind2]
  have hlen : (pre ++ ('{' :: (mid ++ ['}'])) ++ suf).length =
      pre.length + (mid.length + 2) + suf.length := by
    simp
    omega
  simp only [List.length_reverse, hlen, Nat.zero_add]
  have hj : pre.length + (mid.length + 2) + suf.length - 1 - suf.length =
      pre.length + mid.length + 1 := by omega
  rw [hj, if_pos (by omega : pre.length < pre.length + mid.length + 1)]
  have hdrop : (pre ++ ('{' :: (mid ++ ['}'])) ++ suf).drop pre.length =
      ('{' :: (mid ++ ['}'])) ++ suf := by
    rw [List.append_assoc, List.drop_left]
  rw [hdrop]
  have htk : pre.length + mid.length + 1 - pre.length + 1 = ('{' :: (mid ++ ['}'])).length := by
    simp
    omega
  rw [htk, List.take_left]

/-- The span extractor on a rendered object wrapped in braceless prose. -/
theorem extractSpan_emit_obj (pre suf : List Char) (fs : List (String × Js))
    (hpre : ∀ c ∈ pre, c ≠ '{') (hsuf : ∀ c ∈ suf, c ≠ '}') :
    extractSpan (pre ++ emit (Js.obj fs) ++ suf) = some (emit (Js.obj fs)) := by
  have hemit : emit (Js.obj fs) = '{' :: (emitFields fs ++ ['}']) := by
    simp [emit]
  rw [hemit]
  exact extractSpan_wrap pre (emitFields fs) suf hpre hsuf

/-- `parseV2Response` on a rendered object wrapped in braceless prose is
exactly the validation of that object. -/
theorem parseV2Response_wrapped (pre suf : List Char) (fs : List (String × Js))
    (hpre : ∀ c ∈ pre, c ≠ '{') (hsuf : ∀ c ∈ suf, c ≠ '}') :
    parseV2Response ((pre ++ emit (Js.obj fs) ++ suf).asString) = validateV2 (Js.obj fs) := by
  rw [parseV2Response, parseV2Attempt]
  rw [show ((pre ++ emit (Js.obj fs) ++ suf).asString).toList = pre ++ emit (Js.obj fs) ++ suf
    from rfl]
  rw [extractSpan_emit_obj pre suf fs hpre hsuf]
  simp only [parseJsonText_emit]

/-! ### Behaviour of the schema gate -/

/-- The validator rejects exactly when one of the three load-bearing fields
is absent or falsy. -/
theorem validateV2_none_iff (parsed : Js) :
    validateV2 parsed = none ↔
      (truthyO (parsed.get? "prIntent") = false ∨
       truthyO (parsed.get? "changeOverview") = false ∨
       truthyO (parsed.get? "verdict") = false) := by
  unfold validateV2 truthyO
  rcases hpi : parsed.get? "prIntent" with _ | pi <;>
    rcases hco : parsed.get? "changeOverview" with _ | co <;>
      rcases hvd : parsed.get? "verdict" with _ | vd <;>
        simp <;>
          by_cases h1 : pi.truthy <;> by_cases h2 : co.truthy <;> by_cases h3 : vd.truthy <;>
            simp [h1, h2, h3]

/-- The validator's output on a passing object, field by field. -/
theorem validateV2_some (parsed pi co vd : Js)
    (hpi : parsed.get? "prIntent" = some pi) (hco : parsed.get? "changeOverview" = some co)
    (hvd : parsed.get? "verdict" = some vd)
    (hti : pi.truthy = true) (htc : co.truthy = true) (htv : vd.truthy = true) :
    validateV2 parsed = some (Js.obj
      [("prIntent", pi),
       ("changeOverview", co),
       ("keyRisks", jsOrU (parsed.get? "keyRisks") (Js.arr [])),
       ("checklist", jsOrU (parsed.get? "checklist") (Js.arr [])),
       ("prBodySuggestion", jsOrU (parsed.get? "prBodySuggestion")
          (Js.obj [("sections", Js.arr [])])),
       ("verdict", Js.obj
         [("verdict", jsOrU (vd.get? "verdict") (Js.str "commented")),
          ("confidence", jsOrU (vd.get? "confidence") (Js.num 5 1)),
          ("summary", jsOrU (vd.get? "summary") (Js.str ""))])]) := by
  unfold validateV2
  rw [hpi, hco, hvd]
  simp [hti, htc, htv]

/-- A nonempty-or-defaulted string survives `|| ""`. -/
theorem jsOr_str_empty (s : String) : jsOr (Js.str s) (Js.str "") = Js.str s := by
  by_cases h : s = ""
  · subst h; rfl
  · simp [jsOr, Js.truthy, h]

/-! ### Concrete fixtures used by witnesses -/

/-- A concrete PR context. -/
def pc0 : PRContext := ⟨"Add docs", none, "alice", "main", "feature"⟩

/-- A concrete document-type classification. -/
def dt0 : DocTypeClassification := ⟨"readme", ⟨92, 2⟩⟩

/-- A concrete semantic diff. -/
def sd0 : SemanticDiff := ⟨⟨2, 0, 1, 0⟩, []⟩

/-- A configuration whose credentials are both empty. -/
def cfg0 : MiniMaxConfig := ⟨"", ""⟩

/-- A fetch that always rejects. -/
def oracleThrows : FetchOracle := fun _ => .throws

/-- A fetch that resolves with a well-formed body whose first choice's
content is the text `hello`. -/
def oracleHello : FetchOracle := fun _ =>
  .resp true 200 (.ok (Js.obj
    [("choices", Js.arr [Js.obj [("message", Js.obj [("content", Js.str "hello")])]])]))

/-! ### The claims -/

/-- C1: whenever `config.apiKey` or `config.groupId` is the empty string,
`generateV2Review` returns `null` immediately and its network-call trace is
empty — `fetch` is never invoked. -/
theorem c1_missing_credentials_no_fetch (oracle : FetchOracle) (prContext : PRContext)
    (docType : DocTypeClassification) (semanticDiff : SemanticDiff)
    (findings : List ReviewFinding) (config : MiniMaxConfig)
    (codeFiles : Option (List CodeFileInfo))
    (h : config.apiKey = "" ∨ config.groupId = "") :
    generateV2Review oracle prContext docType semanticDiff findings config codeFiles =
      (none, []) := by
  rcases h with h | h <;> simp [generateV2Review, h]

/-- Witness for C1 at a concrete configuration with an empty `apiKey`. -/
theorem c1_witness :
    generateV2Review oracleThrows pc0 dt0 sd0 [] ⟨"", "group"⟩ none = (none, []) :=
  c1_missing_credentials_no_fetch oracleThrows pc0 dt0 sd0 [] ⟨"", "group"⟩ none (Or.inl rfl)

/-- C2 counterexample: with both credentials empty, `generateAISummary`
still issues one network call (not zero) and, when the model answers, returns
the model text (not `""`) — the claimed fail-fast path does not exist. -/
theorem c2_counterexample :
    generateAISummary oracleHello dt0 sd0 [] cfg0 none =
      (Js.str "hello", [mkRequest cfg0 (legacyPrompt dt0 sd0) 50]) ∧
    (generateAISummary oracleHello dt0 sd0 [] cfg0 none).2.length ≠ 0 ∧
    Js.str "hello" ≠ Js.str "" := by
  refine ⟨rfl, ?_, ?_⟩
  · rw [show (generateAISummary oracleHello dt0 sd0 [] cfg0 none).2.length = 1 from rfl]
    omega
  · intro h
    injection h with h2
    exact absurd h2 (by decide)

/-- C2 as amended: `generateAISummary` performs no credential check — even
with an empty `apiKey` or `groupId` it issues exactly one network call; it
returns `""` when that call rejects; and `generatePRDescription` delegates
to it unchanged. -/
theorem c2_amended (oracle : FetchOracle) (docType : DocTypeClassification)
    (diff : SemanticDiff) (findings : List LegacyFinding) (config : MiniMaxConfig)
    (codeFiles : Option (List CodeFileInfo))
    (h : config.apiKey = "" ∨ config.groupId = "")
    (h2 : oracle (mkRequest config (legacyPrompt docType diff) 50) = .throws) :
    generateAISummary oracle docType diff findings config codeFiles =
      (Js.str "", [mkRequest config (legacyPrompt docType diff) 50]) ∧
    generatePRDescription oracle docType diff findings config codeFiles =
      generateAISummary oracle docType diff findings config codeFiles := by
  refine ⟨?_, rfl⟩
  simp [generateAISummary, generateAISummaryAttempt, h2]

/-- Witness for C2's amended statement with empty credentials and a
rejecting fetch. -/
theorem c2_amended_witness :
    generateAISummary oracleThrows dt0 sd0 [] cfg0 none =
      (Js.str "", [mkRequest cfg0 (legacyPrompt dt0 sd0) 50]) ∧
    generatePRDescription oracleThrows dt0 sd0 [] cfg0 none =
      generateAISummary oracleThrows dt0 sd0 [] cfg0 none :=
  c2_amended oracleThrows dt0 sd0 [] cfg0 none (Or.inl rfl) rfl

/-- C5 counterexample: a warning finding does not change the issued request,
and its message never appears in the legacy prompt — the prompt is not built
from warning-kind finding messages. -/
theorem c5_counterexample :
    (generateAISummary oracleThrows dt0 sd0
        [⟨"warning", "docs", "UNIQUEWARNMSG"⟩] cfg0 none).2 =
      (generateAISummary oracleThrows dt0 sd0 [] cfg0 none).2 ∧
    ¬ "UNIQUEWARNMSG".toList <:+: (legacyPrompt dt0 sd0).toList := by
  refine ⟨rfl, by decide⟩

/-- C5 as amended: the prompt `generateAISummary` sends is built from
`docType.type` and the numeric diff stats alone; the findings list (and the
code-file list) never influences the request. -/
theorem c5_amended (oracle : FetchOracle) (docType : DocTypeClassification)
    (diff : SemanticDiff) (findings findings' : List LegacyFinding)
    (config : MiniMaxConfig) (codeFiles codeFiles' : Option (List CodeFileInfo)) :
    (generateAISummary oracle docType diff findings config codeFiles).2 =
      [mkRequest config (legacyPrompt docType diff) 50] ∧
    generateAISummary oracle docType diff findings config codeFiles =
      generateAISummary oracle docType diff findings' config codeFiles' :=
  ⟨rfl, rfl⟩

/-- C6: the moved-section marker the code actually renders is the mojibake
pair `Â»`, not the single guillemet `»` the claim states; at a moved section
with heading `Setup` the two renderings differ. -/
theorem c6_moved_marker_mojibake :
    fmtSectionChange (SectionChange.moved "Setup") = "Â» Setup (moved)" ∧
    "Â» Setup (moved)" ≠ "» Setup (moved)" :=
  ⟨rfl, by decide⟩

/-- C8: `generateV2PRDescription` renders every section, in input order with
no re-sorting or capping, as a level-2 heading followed by its content with
blank-line separation, and returns `""` on an empty section list. -/
theorem c8_pr_description_rendering (v : V2ReviewOutput) :
    generateV2PRDescription v =
      String.intercalate "\n\n"
        (v.prBodySuggestion.sections.map (fun s => "## " ++ s.heading ++ "\n\n" ++ s.content)) ∧
    (v.prBodySuggestion.sections = [] → generateV2PRDescription v = "") := by
  constructor
  · unfold generateV2PRDescription
    by_cases h : v.prBodySuggestion.sections.length = 0
    · rw [if_pos h]
      rw [List.length_eq_zero.mp h]
      rfl
    · rw [if_neg h]
  · intro h
    unfold generateV2PRDescription
    rw [if_pos (by simp [h])]

/-- Witness for C8 at a two-section suggestion and at the empty suggestion. -/
theorem c8_witness :
    generateV2PRDescription ⟨"i", "o", [], [], ⟨[⟨"H1", "c1"⟩, ⟨"H2", "c2"⟩]⟩, ⟨"approved", ⟨8, 1⟩, "ok"⟩⟩ =
      "## H1\n\nc1\n\n## H2\n\nc2" ∧
    generateV2PRDescription ⟨"i", "o", [], [], ⟨[]⟩, ⟨"approved", ⟨8, 1⟩, "ok"⟩⟩ = "" := by
  constructor
  · rw [(c8_pr_description_rendering _).1]
    rfl
  · exact (c8_pr_description_rendering _).2 rfl

/-- C3: for every raw text whose extracted span decodes, `parseV2Response`
returns null exactly when one of `prIntent`, `changeOverview`, `verdict` is
absent or falsy; when all three are truthy it returns an object in which
`keyRisks` defaults to `[]`, `checklist` to `[]` and `prBodySuggestion` to
an empty-sections object whenever those keys are absent. -/
theorem c3_schema_gate_and_defaults (s : String) (span : List Char) (parsed : Js)
    (h1 : extractSpan s.toList = some span)
    (h2 : parseJsonText span = some parsed) :
    (parseV2Response s = none ↔
      (truthyO (parsed.get? "prIntent") = false ∨
       truthyO (parsed.get? "changeOverview") = false ∨
       truthyO (parsed.get? "verdict") = false)) ∧
    (truthyO (parsed.get? "prIntent") = true →
     truthyO (parsed.get? "changeOverview") = true →
     truthyO (parsed.get? "verdict") = true →
     ∃ r, parseV2Response s = some r ∧
       (parsed.get? "keyRisks" = none → r.get? "keyRisks" = some (Js.arr [])) ∧
       (parsed.get? "checklist" = none → r.get? "checklist" = some (Js.arr [])) ∧
       (parsed.get? "prBodySuggestion" = none →
         r.get? "prBodySuggestion" = some (Js.obj [("sections", Js.arr [])]))) := by
  have hrun : parseV2Response s = validateV2 parsed := by
    unfold parseV2Response parseV2Attempt
    simp only [h1, h2]
  constructor
  · rw [hrun]
    exact validateV2_none_iff parsed
  · intro hti htc htv
    rcases hpi : parsed.get? "prIntent" with _ | pi
    · rw [hpi] at hti
      exact absurd hti (by simp [truthyO])
    rcases hco : parsed.get? "changeOverview" with _ | co
    · rw [hco] at htc
      exact absurd htc (by simp [truthyO])
    rcases hvd : parsed.get? "verdict" with _ | vd
    · rw [hvd] at htv
      exact absurd htv (by simp [truthyO])
    rw [hpi] at hti
    rw [hco] at htc
    rw [hvd] at htv
    simp only [truthyO] at hti htc htv
    refine ⟨Js.obj
      [("prIntent", pi),
       ("changeOverview", co),
       ("keyRisks", jsOrU (parsed.get? "keyRisks") (Js.arr [])),
       ("checklist", jsOrU (parsed.get? "checklist") (Js.arr [])),
       ("prBodySuggestion", jsOrU (parsed.get? "prBodySuggestion")
          (Js.obj [("sections", Js.arr [])])),
       ("verdict", Js.obj
         [("verdict", jsOrU (vd.get? "verdict") (Js.str "commented")),
          ("confidence", jsOrU (vd.get? "confidence") (Js.num 5 1)),
          ("summary", jsOrU (vd.get? "summary") (Js.str ""))])], ?_, ?_, ?_, ?_⟩
    · rw [hrun]
      exact validateV2_some parsed pi co vd hpi hco hvd hti htc htv
    · intro habs
      rw [habs]
      rfl
    · intro habs
      rw [habs]
      rfl
    · intro habs
      rw [habs]
      rfl

/-- Witness for C3: a response with all three load-bearing fields truthy and
the defaultable keys absent parses to non-null, while a falsy `prIntent`
parses to null. -/
theorem c3_witness :
    parseV2Response "\x7b\"prIntent\":\"a\",\"changeOverview\":\"b\",\"verdict\":\x7b\x7d\x7d" ≠
      none ∧
    parseV2Response "\x7b\"prIntent\":\"\",\"changeOverview\":\"b\",\"verdict\":\x7b\x7d\x7d" =
      none := by
  constructor
  · intro hnone
    have h := (c3_schema_gate_and_defaults
      "\x7b\"prIntent\":\"a\",\"changeOverview\":\"b\",\"verdict\":\x7b\x7d\x7d"
      "\x7b\"prIntent\":\"a\",\"changeOverview\":\"b\",\"verdict\":\x7b\x7d\x7d".toList
      (Js.obj [("prIntent", Js.str "a"), ("changeOverview", Js.str "b"),
        ("verdict", Js.obj [])]) rfl rfl).1.mp hnone
    rcases h with h | h | h <;> exact absurd h (by decide)
  · exact (c3_schema_gate_and_defaults
      "\x7b\"prIntent\":\"\",\"changeOverview\":\"b\",\"verdict\":\x7b\x7d\x7d"
      "\x7b\"prIntent\":\"\",\"changeOverview\":\"b\",\"verdict\":\x7b\x7d\x7d".toList
      (Js.obj [("prIntent", Js.str ""), ("changeOverview", Js.str "b"),
        ("verdict", Js.obj [])]) rfl rfl).1.mpr (Or.inl (by decide))

/-- C4 counterexample: a present numeric confidence of `0` is not preserved:
`parseV2Response` substitutes `0.5` for it, refuting the claim as stated. -/
theorem c4_counterexample :
    ((parseV2Response
        "\x7b\"prIntent\":\"a\",\"changeOverview\":\"b\",\"verdict\":\x7b\"verdict\":\"approved\",\"confidence\":0,\"summary\":\"s\"\x7d\x7d").bind
        (fun r => r.get? "verdict")).bind (fun vd => vd.get? "confidence") =
      some (Js.num 5 1) ∧
    Js.num 5 1 ≠ Js.num 0 0 := by
  refine ⟨rfl, ?_⟩
  intro h
  injection h with hm he
  exact absurd hm (by decide)

/-- C4 as amended: `0.5` is substituted for `verdict.confidence` exactly
when that subfield is absent or falsy — so a present numeric `0` is also
replaced — and every present truthy value, numeric or not, is preserved
unchanged. -/
theorem c4_amended (s : String) (span : List Char) (parsed vd : Js)
    (h1 : extractSpan s.toList = some span) (h2 : parseJsonText span = some parsed)
    (hpi : truthyO (parsed.get? "prIntent") = true)
    (hco : truthyO (parsed.get? "changeOverview") = true)
    (hvd : parsed.get? "verdict" = some vd) (hvt : vd.truthy = true) :
    ∃ r rv, parseV2Response s = some r ∧ r.get? "verdict" = some rv ∧
      (∀ c, vd.get? "confidence" = some c → c.truthy = true →
        rv.get? "confidence" = some c) ∧
      (vd.get? "confidence" = none → rv.get? "confidence" = some (Js.num 5 1)) ∧
      (∀ c, vd.get? "confidence" = some c → c.truthy = false →
        rv.get? "confidence" = some (Js.num 5 1)) := by
  have hrun : parseV2Response s = validateV2 parsed := by
    unfold parseV2Response parseV2Attempt
    simp only [h1, h2]
  rcases hpi' : parsed.get? "prIntent" with _ | pi
  · rw [hpi'] at hpi
    exact absurd hpi (by simp [truthyO])
  rcases hco' : parsed.get? "changeOverview" with _ | co
  · rw [hco'] at hco
    exact absurd hco (by simp [truthyO])
  rw [hpi'] at hpi
  rw [hco'] at hco
  simp only [truthyO] at hpi hco
  refine ⟨Js.obj
      [("prIntent", pi),
       ("changeOverview", co),
       ("keyRisks", jsOrU (parsed.get? "keyRisks") (Js.arr [])),
       ("checklist", jsOrU (parsed.get? "checklist") (Js.arr [])),
       ("prBodySuggestion", jsOrU (parsed.get? "prBodySuggestion")
          (Js.obj [("sections", Js.arr [])])),
       ("verdict", Js.obj
         [("verdict", jsOrU (vd.get? "verdict") (Js.str "commented")),
          ("confidence", jsOrU (vd.get? "confidence") (Js.num 5 1)),
          ("summary", jsOrU (vd.get? "summary") (Js.str ""))])],
    Js.obj
      [("verdict", jsOrU (vd.get? "verdict") (Js.str "commented")),
       ("confidence", jsOrU (vd.get? "confidence") (Js.num 5 1)),
       ("summary", jsOrU (vd.get? "summary") (Js.str ""))],
    by rw [hrun]; exact validateV2_some parsed pi co vd hpi' hco' hvd hpi hco hvt,
    rfl, ?_, ?_, ?_⟩
  · intro c hc hct
    rw [show (Js.obj
      [("verdict", jsOrU (vd.get? "verdict") (Js.str "commented")),
       ("confidence", jsOrU (vd.get? "confidence") (Js.num 5 1)),
       ("summary", jsOrU (vd.get? "summary") (Js.str ""))]).get? "confidence" =
        some (jsOrU (vd.get? "confidence") (Js.num 5 1)) from rfl, hc]
    simp [jsOrU, jsOr, hct]
  · intro hc
    rw [show (Js.obj
      [("verdict", jsOrU (vd.get? "verdict") (Js.str "commented")),
       ("confidence", jsOrU (vd.get? "confidence") (Js.num 5 1)),
       ("summary", jsOrU (vd.get? "summary") (Js.str ""))]).get? "confidence" =
        some (jsOrU (vd.get? "confidence") (Js.num 5 1)) from rfl, hc]
    rfl
  · intro c hc hcf
    rw [show (Js.obj
      [("verdict", jsOrU (vd.get? "verdict") (Js.str "commented")),
       ("confidence", jsOrU (vd.get? "confidence") (Js.num 5 1)),
       ("summary", jsOrU (vd.get? "summary") (Js.str ""))]).get? "confidence" =
        some (jsOrU (vd.get? "confidence") (Js.num 5 1)) from rfl, hc]
    simp [jsOrU, jsOr, hcf]

/-- Witness for C4's amended statement: a truthy confidence of `0.9` is
preserved through the parser. -/
theorem c4_amended_witness :
    ((parseV2Response
        "\x7b\"prIntent\":\"a\",\"changeOverview\":\"b\",\"verdict\":\x7b\"confidence\":0.9\x7d\x7d").bind
        (fun r => r.get? "verdict")).bind (fun vd => vd.get? "confidence") =
      some (Js.num 9 1) := by
  obtain ⟨r, rv, hr, hrv, hkeep, -, -⟩ := c4_amended
    "\x7b\"prIntent\":\"a\",\"changeOverview\":\"b\",\"verdict\":\x7b\"confidence\":0.9\x7d\x7d"
    "\x7b\"prIntent\":\"a\",\"changeOverview\":\"b\",\"verdict\":\x7b\"confidence\":0.9\x7d\x7d".toList
    (Js.obj [("prIntent", Js.str "a"), ("changeOverview", Js.str "b"),
      ("verdict", Js.obj [("confidence", Js.num 9 1)])])
    (Js.obj [("confidence", Js.num 9 1)]) rfl rfl (by decide) (by decide) rfl (by decide)
  rw [hr]
  have hk := hkeep (Js.num 9 1) rfl (by decide)
  simp [hrv, hk]

/-- C7: the candidate JSON is located as the span from the first opening to
the last closing brace — with no such span the result is null, and a
rendered object wrapped in brace-free prose is still extracted and parsed
into the validator. -/
theorem c7_span_extraction :
    (∀ s : String, extractSpan s.toList = none → parseV2Response s = none) ∧
    (∀ (pre suf : List Char) (fs : List (String × Js)),
      (∀ c ∈ pre, c ≠ '{') → (∀ c ∈ suf, c ≠ '}') →
      extractSpan (pre ++ emit (Js.obj fs) ++ suf) = some (emit (Js.obj fs)) ∧
      parseV2Response ((pre ++ emit (Js.obj fs) ++ suf).asString) = validateV2 (Js.obj fs)) := by
  constructor
  · intro s h
    unfold parseV2Response parseV2Attempt
    simp only [h]
  · intro pre suf fs hpre hsuf
    exact ⟨extractSpan_emit_obj pre suf fs hpre hsuf,
      parseV2Response_wrapped pre suf fs hpre hsuf⟩

/-- Witness for C7: a brace-free text yields null, and a valid JSON object
surrounded by prose is still extracted and validated. -/
theorem c7_witness :
    parseV2Response "no braces here at all" = none ∧
    parseV2Response ("Here is the result: ".toList ++
        emit (Js.obj [("prIntent", Js.str "a"), ("changeOverview", Js.str "b"),
          ("verdict", Js.obj [])]) ++ " thanks".toList).asString =
      some (Js.obj
        [("prIntent", Js.str "a"),
         ("changeOverview", Js.str "b"),
         ("keyRisks", Js.arr []),
         ("checklist", Js.arr []),
         ("prBodySuggestion", Js.obj [("sections", Js.arr [])]),
         ("verdict", Js.obj
           [("verdict", Js.str "commented"), ("confidence", Js.num 5 1),
            ("summary", Js.str "")])]) := by
  constructor
  · exact c7_span_extraction.1 "no braces here at all" rfl
  · rw [(c7_span_extraction.2 "Here is the result: ".toList " thanks".toList
      [("prIntent", Js.str "a"), ("changeOverview", Js.str "b"), ("verdict", Js.obj [])]
      (by decide) (by decide)).2]
    rfl

/-- C9: nothing escapes as an exception — whenever the `try` body of
`parseV2Response`, `generateV2Review` or `generateAISummary` ends in a
thrown error, the operation returns its sentinel (`null`, `null`, `""`). -/
theorem c9_no_exception_escapes :
    (∀ s : String, (parseV2Attempt s).isOk = false → parseV2Response s = none) ∧
    (∀ (oracle : FetchOracle) (pc : PRContext) (dt : DocTypeClassification)
        (sd : SemanticDiff) (f : List ReviewFinding) (cfg : MiniMaxConfig)
        (cf : Option (List CodeFileInfo)),
      (generateV2ReviewAttempt oracle
          (mkRequest cfg (buildRichPrompt pc dt sd f (cf.getD [])) 2000)).isOk = false →
      (generateV2Review oracle pc dt sd f cfg cf).1 = none) ∧
    (∀ (oracle : FetchOracle) (dt : DocTypeClassification) (sd : SemanticDiff)
        (fnd : List LegacyFinding) (cfg : MiniMaxConfig) (cf : Option (List CodeFileInfo)),
      (generateAISummaryAttempt oracle (mkRequest cfg (legacyPrompt dt sd) 50)).isOk = false →
      (generateAISummary oracle dt sd fnd cfg cf).1 = Js.str "") := by
  refine ⟨?_, ?_, ?_⟩
  · intro s h
    unfold parseV2Response
    cases hA : parseV2Attempt s with
    | ok r =>
      rw [hA] at h
      simp [Except.isOk, Except.toBool] at h
    | error e => rfl
  · intro oracle pc dt sd f cfg cf h
    unfold generateV2Review
    by_cases hcred : cfg.apiKey = "" ∨ cfg.groupId = ""
    · rcases hcred with hc | hc <;> simp [hc]
    · push_neg at hcred
      simp only [hcred.1, hcred.2]
      cases hA : generateV2ReviewAttempt oracle
          (mkRequest cfg (buildRichPrompt pc dt sd f (cf.getD [])) 2000) with
      | ok r =>
        rw [hA] at h
        simp [Except.isOk, Except.toBool] at h
      | error e =>
        simp [hcred.1, hcred.2, hA]
  · intro oracle dt sd fnd cfg cf h
    unfold generateAISummary
    cases hA : generateAISummaryAttempt oracle (mkRequest cfg (legacyPrompt dt sd) 50) with
    | ok r =>
      rw [hA] at h
      simp [Except.isOk, Except.toBool] at h
    | error e => simp [hA]

/-- Witness for C9: a malformed JSON span, a rejecting fetch under
`generateV2Review`, and a rejecting fetch under `generateAISummary` all
collapse to their sentinels. -/
theorem c9_witness :
    parseV2Response "\x7bnot json\x7d" = none ∧
    (generateV2Review oracleThrows pc0 dt0 sd0 [] ⟨"key", "group"⟩ none).1 = none ∧
    (generateAISummary oracleThrows dt0 sd0 [] ⟨"key", "group"⟩ none).1 = Js.str "" :=
  ⟨c9_no_exception_escapes.1 "\x7bnot json\x7d" rfl,
   c9_no_exception_escapes.2.1 oracleThrows pc0 dt0 sd0 [] ⟨"key", "group"⟩ none rfl,
   c9_no_exception_escapes.2.2 oracleThrows dt0 sd0 [] ⟨"key", "group"⟩ none rfl⟩

/-- C10: serializing a well-formed review output whose load-bearing strings
are nonempty and whose confidence is a nonzero decimal, then parsing it
back, returns exactly the original object (in its JavaScript-object form). -/
theorem c10_roundtrip (v : V2ReviewOutput) (h1 : v.prIntent ≠ "")
    (h2 : v.changeOverview ≠ "") (h3 : v.verdict.verdict ≠ "")
    (h4 : v.verdict.confidence.m ≠ 0) :
    parseV2Response (stringify (V2ReviewOutput.toJs v)) = some (V2ReviewOutput.toJs v) := by
  obtain ⟨fs, hfs⟩ : ∃ fs, V2ReviewOutput.toJs v = Js.obj fs := ⟨_, rfl⟩
  have hw := parseV2Response_wrapped [] [] fs (by simp) (by simp)
  simp only [List.nil_append, List.append_nil] at hw
  rw [show stringify (V2ReviewOutput.toJs v) = (emit (V2ReviewOutput.toJs v)).asString from rfl,
    hfs, hw, ← hfs]
  have hgpi : (V2ReviewOutput.toJs v).get? "prIntent" = some (Js.str v.prIntent) := rfl
  have hgco : (V2ReviewOutput.toJs v).get? "changeOverview" =
      some (Js.str v.changeOverview) := rfl
  have hgvd : (V2ReviewOutput.toJs v).get? "verdict" = some (V2Verdict.toJs v.verdict) := rfl
  rw [validateV2_some (V2ReviewOutput.toJs v) _ _ _ hgpi hgco hgvd
    (by simp [Js.truthy, h1]) (by simp [Js.truthy, h2]) rfl]
  have hvv : jsOrU ((V2Verdict.toJs v.verdict).get? "verdict") (Js.str "commented") =
      Js.str v.verdict.verdict := by
    rw [show (V2Verdict.toJs v.verdict).get? "verdict" = some (Js.str v.verdict.verdict)
      from rfl]
    simp [jsOrU, jsOr, Js.truthy, h3]
  have hvc : jsOrU ((V2Verdict.toJs v.verdict).get? "confidence") (Js.num 5 1) =
      Js.num v.verdict.confidence.m v.verdict.confidence.e := by
    rw [show (V2Verdict.toJs v.verdict).get? "confidence" =
      some (Js.num v.verdict.confidence.m v.verdict.confidence.e) from rfl]
    simp [jsOrU, jsOr, Js.truthy, h4]
  have hvs : jsOrU ((V2Verdict.toJs v.verdict).get? "summary") (Js.str "") =
      Js.str v.verdict.summary := by
    rw [show (V2Verdict.toJs v.verdict).get? "summary" = some (Js.str v.verdict.summary)
      from rfl]
    exact jsOr_str_empty v.verdict.summary
  rw [hvv, hvc, hvs]
  rfl

/-- Witness for C10 at a fully populated concrete review output. -/
theorem c10_witness :
    parseV2Response (stringify (V2ReviewOutput.toJs
      ⟨"Improve onboarding", "Docs updated",
       [⟨"low", "docs", "d", "e", "s"⟩], [⟨"docs", "item", "required"⟩],
       ⟨[⟨"H", "c"⟩]⟩, ⟨"approved", ⟨8, 1⟩, "Looks good"⟩⟩)) =
    some (V2ReviewOutput.toJs
      ⟨"Improve onboarding", "Docs updated",
       [⟨"low", "docs", "d", "e", "s"⟩], [⟨"docs", "item", "required"⟩],
       ⟨[⟨"H", "c"⟩]⟩, ⟨"approved", ⟨8, 1⟩, "Looks good"⟩⟩) :=
  c10_roundtrip
    ⟨"Improve onboarding", "Docs updated",
     [⟨"low", "docs", "d", "e", "s"⟩], [⟨"docs", "item", "required"⟩],
     ⟨[⟨"H", "c"⟩]⟩, ⟨"approved", ⟨8, 1⟩, "Looks good"⟩⟩
    (by decide) (by decide) (by decide) (by decide)

end DiffShield
